import Mathlib

/-!
Verification of the matching and scoring engine of the matchagig backend.

The engine lives in two revisions of `routes/match.js` (the current file and an
earlier revision kept in the repository), together with `lib/text.js`
(token normalization, overlap intersection, education ranking, and the
TTL-based embedding cache that was concatenated into that file from
`lib/embeddings.js`) and `config/match-weights.js`.

Modelling conventions, applied throughout:
* JS numbers are modelled as `ℚ` (rationals); values that the code produces by
  `Math.round`/clamping are modelled as `ℤ`.
* JS strings are modelled as `String`, with character-level work done on
  `List Char`.  `toLowerCase` is modelled on the basic-latin range (the inputs
  the engine normalizes are plain ASCII terms).
* The embedding provider is external (network call returning a float vector).
  It is modelled as an explicit oracle parameter; the cosine similarity of two
  embedded terms, which the code computes with `Math.sqrt` over provider
  output, is modelled as a similarity oracle `sim : String → String → ℚ`
  passed to the matching functions.  None of the verified claims depend on
  how the oracle's values arise, only on how the code consumes them.
* The in-memory `Map` caches are modelled as association lists threaded
  through the functions as explicit state.
-/

/-- `Math.round` of JavaScript on a rational: round half toward positive
infinity, i.e. `⌊q + 1/2⌋`. -/
def jsRound (q : ℚ) : ℤ := ⌊q + 1/2⌋

/-- `Number(x.toFixed(4))` of JavaScript: round to four decimal places.
The code uses this only to format the reported cosine values. -/
def round4 (q : ℚ) : ℚ := (jsRound (q * 10000) : ℚ) / 10000

/-- The final clamp `Math.max(0, Math.min(100, s))` used on scores. -/
def clamp100 (s : ℤ) : ℤ := max 0 (min 100 s)

/-! ### Token normalization, first version (`lib/text.js` lines 3-12)

`normalizeToken` lower-cases, trims, replaces punctuation/symbol runs by a
single space (`PUNCT_RE = /[\p{P}\p{S}]+/gu` followed by whitespace
collapsing), and strips one trailing "es" or "s".  The punctuation class is
modelled by its ASCII fragment, which is what the normalized vocabulary of
the engine contains. -/

/-- The ASCII characters of the Unicode punctuation and symbol classes
matched by `PUNCT_RE` in `lib/text.js`. -/
def punctSymChars : List Char :=
  ['!', '"', '#', '$', '%', '&', Char.ofNat 39, '(', ')', '*', '+', ',',
   '-', '.', '/', ':', ';', '<', '=', '>', '?', '@', '[', '\\', ']', '^',
   '_', Char.ofNat 96, Char.ofNat 123, '|', Char.ofNat 125, '~']

/-- Does `PUNCT_RE` match this character (ASCII fragment)? -/
def isPunctSym (c : Char) : Bool := punctSymChars.contains c

/-- Drop whitespace from both ends of a character list (JS `trim`). -/
def trimList (l : List Char) : List Char :=
  ((l.dropWhile Char.isWhitespace).reverse.dropWhile Char.isWhitespace).reverse

/-- Replace every punctuation/symbol character by a space.  Together with the
subsequent whitespace collapse this realizes the run-to-single-space
replacement `t.replace(PUNCT_RE, ' ')` of the source. -/
def punctToSpaceList (l : List Char) : List Char :=
  l.map (fun c => if isPunctSym c then ' ' else c)

/-- Core of `t.replace(/\s+/g, ' ')` plus the trailing trim: collapse every
whitespace run to a single space, dropping a trailing run.  The flag records
whether a whitespace run is pending in front of the next character.  The
caller is expected to have removed a leading run. -/
def collapseCore : Bool → List Char → List Char
  | _, [] => []
  | pending, c :: rest =>
    if Char.isWhitespace c then collapseCore true rest
    else if pending then ' ' :: c :: collapseCore false rest
    else c :: collapseCore false rest

/-- `t.replace(/\s+/g, ' ').trim()` of the source. -/
def collapseWsList (l : List Char) : List Char :=
  collapseCore false (l.dropWhile Char.isWhitespace)

/-- The naive singularization of `normalizeToken`: `t.endsWith('es')`
drops two characters, else `t.endsWith('s')` drops one (`slice`). -/
def pluralStripList (l : List Char) : List Char :=
  if l.reverse.take 2 = ['s', 'e'] then (l.reverse.drop 2).reverse
  else if l.reverse.take 1 = ['s'] then (l.reverse.drop 1).reverse
  else l

/-- `normalizeToken` of `lib/text.js` (first version, lines 3-12) on
character lists. -/
def normalizeTokenList (l : List Char) : List Char :=
  pluralStripList (collapseWsList (punctToSpaceList (trimList (l.map Char.toLower))))

/-- `normalizeToken` of `lib/text.js` (first version): the guard `if (!s)
return ''` is the empty-string case. -/
def normalizeToken (s : String) : String :=
  if s = "" then "" else String.mk (normalizeTokenList s.data)

/-! ### Token normalization, second version (`lib/text.js` lines 42-49)

The rewritten `normalizeToken` keeps only `[a-z0-9+&/#.\- ]` after
lower-casing (deleting other characters instead of spacing them), collapses
whitespace, and performs no singularization.  This is the version the
gate-based match route imports (it sits in the same revision of
`lib/text.js` as `educationMeets`, which that route also imports). -/

/-- Is the character kept by the second `normalizeToken`'s character class
`[a-z0-9+&/#.\- ]`? -/
def allowedV2 (c : Char) : Bool :=
  c.isLower || c.isDigit ||
    ['+', '&', '/', '#', '.', '-', ' '].contains c

/-- `normalizeToken` of `lib/text.js` (second version, lines 42-49). -/
def normalizeTokenV2 (s : String) : String :=
  String.mk (collapseWsList ((s.data.map Char.toLower).filter allowedV2))

/-- `intersect` of `lib/text.js` (second version, lines 51-65): walk `b`,
normalize each element, skip empties and duplicates, and keep those whose
normalized form occurs among the normalized elements of `a`, up to `limit`
entries.  `acc` carries the output (which is also the `seen` set). -/
def intersectAux (aSet : List String) (limit : ℕ) :
    List String → List String → List String
  | [], acc => acc
  | x :: rest, acc =>
    let nx := normalizeTokenV2 x
    if nx = "" || acc.contains nx then intersectAux aSet limit rest acc
    else if aSet.contains nx then
      let acc2 := acc ++ [nx]
      if limit ≤ acc2.length then acc2 else intersectAux aSet limit rest acc2
    else intersectAux aSet limit rest acc

/-- `intersect(a, b, limit)` of `lib/text.js` (second version). -/
def intersect (a b : List String) (limit : ℕ) : List String :=
  intersectAux ((a.map normalizeTokenV2).filter (· ≠ "")) limit b []

/-- `educationRank` of `lib/text.js` (second version, lines 80-84): the
`EDU_RANK` ordinal ladder, `-1` for unknown levels. -/
def educationRank (level : String) : ℤ :=
  if level = "" then -1
  else
    let key := String.mk (level.data.map Char.toLower)
    if key = "none" then 0
    else if key = "high school" then 1
    else if key = "diploma/certificate" then 2
    else if key = "associate" then 3
    else if key = "bachelor" then 4
    else if key = "master" then 5
    else if key = "phd/doctorate" then 6
    else -1

/-- `educationMeets` of `lib/text.js` (lines 86-90). -/
def educationMeets (resumeEdu jdEduMin : String) : Bool :=
  if jdEduMin = "" then true
  else if String.mk (jdEduMin.data.map Char.toLower) = "none" then true
  else educationRank jdEduMin ≤ educationRank resumeEdu

/-! ### Small string helpers of `routes/match.js` -/

/-- Is `n` a prefix of `h` (character lists compared from the front)? -/
def prefixAt : List Char → List Char → Bool
  | [], _ => true
  | _ :: _, [] => false
  | a :: as, b :: bs => a == b && prefixAt as bs

/-- JS `hay.includes(nee)`: substring containment. -/
def includes (hay nee : String) : Bool :=
  (List.range (hay.data.length + 1)).any (fun i => prefixAt nee.data (hay.data.drop i))

/-- `const norm = s => (s || '').toString().trim()` of `routes/match.js`
(character-list trim). -/
def jsNorm (s : String) : String := String.mk (trimList s.data)

/-- JS `s.toLowerCase()` on the basic-latin range. -/
def jsToLower (s : String) : String := String.mk (s.data.map Char.toLower)

/-- `Array.from(new Set(l))`: deduplicate keeping first occurrences. -/
def jsSetDedupAux : List String → List String → List String
  | [], acc => acc
  | x :: rest, acc =>
    jsSetDedupAux rest (if acc.contains x then acc else acc ++ [x])

/-- JS `Set`-based deduplication preserving insertion order. -/
def jsSetDedup (l : List String) : List String := jsSetDedupAux l []

/-! ### Data model

`Profile` ("resume overview") and `JobRequirement` as the match routes
consume them.  The nested JS shapes (`jd.roleOrg`, `jd.logistics`,
`jd.requirements`, `jd.successSignals`, `overview.education`) are flattened
into one record per side; resume languages, which the code reduces to their
`name` when given as objects, are modelled as the list of names, and
achievement/outcome objects are modelled by their `text` field.  Nullable
strings are modelled as `String` with `""` for absent (the code only ever
consumes them through truthiness checks and `norm`), while the nullable
numbers `yoe`/`yoeMin`, whose absence the code tests with `!= null`, are
`Option ℚ`. -/

structure Overview where
  title : String := ""
  seniorityHint : String := ""
  functions : List String := []
  topHardSkills : List String := []
  languages : List String := []
  educationLevel : String := ""
  yoe : Option ℚ := none
  topAchievements : List String := []
  employer : String := ""
  employerDescriptor : String := ""
deriving DecidableEq, Repr

structure JD where
  title : String := ""
  seniorityHint : String := ""
  functions : List String := []
  topHardSkills : List String := []
  keyOutcomes : List String := []
  industryHints : List String := []
  languages : List String := []
  workMode : String := ""
  yoeMin : Option ℚ := none
  educationMin : String := ""
deriving DecidableEq, Repr

/-- A boost or penalty entry of the `reasons` trail: its `type` tag and
numeric `amount` (the auxiliary `matches`/`mode` payloads some entries carry
are not modelled; they never influence the score). -/
structure AmountReason where
  type : String
  amount : ℤ
deriving DecidableEq, Repr

/-! ### Embedding cache (`lib/embeddings.js`, concatenated into
`src/lib/text.js` lines 103-137)

`getEmbedding(text, cacheKey)` consults a module-level `Map` holding
`{ vec, at, model }` entries; an entry is used only when it is younger than
`TTL_MS` and was produced under the currently configured model, otherwise
the provider is called and the result is stored under the key.  The `Map`,
the clock and the provider are threaded explicitly; the returned `Bool`
records whether the provider was invoked, and a provider failure (a rejected
promise in the source) is an `Except.error` that leaves the cache as it
was. -/

/-- `TTL_MS = 24 * 60 * 60 * 1000`. -/
def TTL_MS : ℤ := 24 * 60 * 60 * 1000

/-- A cache entry `{ vec, at, model }`. -/
structure CacheEntry where
  vec : List ℚ
  atMs : ℤ
  model : String
deriving DecidableEq, Repr

/-- The module-level `Map` as an association list. -/
abbrev EmbedCache := List (String × CacheEntry)

/-- `cache.get(key)`. -/
def cacheGet (c : EmbedCache) (k : String) : Option CacheEntry :=
  (c.find? (fun p => p.1 = k)).map (·.2)

/-- `cache.set(key, v)`: replace an existing binding, else append. -/
def cacheSet (c : EmbedCache) (k : String) (v : CacheEntry) : EmbedCache :=
  if c.any (fun p => p.1 = k) then
    c.map (fun p => if p.1 = k then (k, v) else p)
  else
    c ++ [(k, v)]

/-- `getEmbedding(text, cacheKey)` of `lib/embeddings.js`.  Returns the
vector (or the propagated provider error), the cache state after the call,
and whether the provider was invoked. -/
def getEmbedding (provider : String → Except String (List ℚ)) (model : String)
    (now : ℤ) (cache : EmbedCache) (text cacheKey : String) :
    Except String (List ℚ) × EmbedCache × Bool :=
  match cacheGet cache cacheKey with
  | some hit =>
    if now - hit.atMs < TTL_MS ∧ hit.model = model then (.ok hit.vec, cache, false)
    else
      match provider text with
      | .error e => (.error e, cache, true)
      | .ok vec => (.ok vec, cacheSet cache cacheKey ⟨vec, now, model⟩, true)
  | none =>
    match provider text with
    | .error e => (.error e, cache, true)
    | .ok vec => (.ok vec, cacheSet cache cacheKey ⟨vec, now, model⟩, true)

/-- `signalCacheKey(prefix, id, text)` builds
`prefix:id:model:sha1(text)`; the external `sha1` digest is modelled by the
text itself (an injective stand-in, which is all the code relies on). -/
def signalCacheKey (model : String) (pre id text : String) : String :=
  pre ++ ":" ++ id ++ ":" ++ model ++ ":" ++ text

/-- A triggered-gate or cap entry of the `reasons.gates` trail. -/
inductive GateReason where
  | yoeBelowMin (yoe yoeMin : ℚ)
  | educationBelowMin (edu eduMin : String)
  | penaltyCap (cappedAt original : ℤ)
  | skillCap (cappedAt : ℤ)
deriving DecidableEq, Repr

/-! ### The gate-based match route

This is the revision of `routes/match.js` that imports
`lib/embeddings.js`, `lib/text.js` (second revision) and
`config/match-weights.js`: it evaluates the experience and education gates
(short-circuiting to score 0), then assembles the score from
`cos * COSINE_WEIGHT` plus language/skill/function/outcome boosts and
seniority/language penalties.  The per-term cosine similarities the route
obtains by embedding both terms are represented by the oracle `sim`; the
`SOFT_OUTCOME` threshold, whose config entry is not part of the repository
snapshot, is the explicit parameter `outcomeThreshold` (its
`boostPerMatch || 2` and `maxBoost || 8` fallbacks are in the route
itself). -/

namespace MatchSemantic

/-- `COSINE_WEIGHT` of `config/match-weights.js`. -/
def COSINE_WEIGHT : ℚ := 70

/-- `GATES.yoeToleranceYears` of `config/match-weights.js` (the route's gate
check uses the same value as the literal `1`). -/
def GATES_yoeToleranceYears : ℚ := 1

/-- `SOFT_SKILL.cosineThreshold` of `config/match-weights.js`. -/
def SOFT_SKILL_cosineThreshold : ℚ := 80/100

/-- `SOFT_FUNC.cosineThreshold` of `config/match-weights.js`. -/
def SOFT_FUNC_cosineThreshold : ℚ := 50/100

/-- `arr.join(', ')`. -/
def joinComma (l : List String) : String := String.intercalate ", " l

/-- `buildResumeSignal(overview)` of the gate-based route: pipe-delimited
labeled segments; a segment whose value is empty is the empty string
(JS `v && \`LABEL ${v}\``) and is removed by `.filter(Boolean)`.  The
`TITLE` segment is built unconditionally. -/
def buildResumeSignal (o : Overview) : String :=
  let title := jsNorm o.title
  let funcs := joinComma (o.functions.map jsNorm)
  let skills := joinComma (o.topHardSkills.map jsNorm)
  let outcomes := joinComma ((o.topAchievements.map jsNorm).filter (· ≠ ""))
  let industries := ""
  let seniority := jsNorm o.seniorityHint
  let langs := joinComma (o.languages.map jsNorm)
  let eduLevel := jsNorm o.educationLevel
  let yoe := match o.yoe with | none => "" | some q => toString q
  String.intercalate " | " (([
    "TITLE " ++ title,
    if funcs = "" then "" else "FUNCTIONS " ++ funcs,
    if skills = "" then "" else "SKILLS " ++ skills,
    if outcomes = "" then "" else "OUTCOMES " ++ outcomes,
    if industries = "" then "" else "INDUSTRIES " ++ industries,
    if seniority = "" then "" else "SENIORITY " ++ seniority,
    if langs = "" then "" else "LANGUAGES " ++ langs,
    if eduLevel = "" then "" else "EDU " ++ eduLevel,
    if yoe = "" then "" else "YOE " ++ yoe
  ] : List String).filter (· ≠ ""))

/-- `buildJdSignal(jd)` of the gate-based route. -/
def buildJdSignal (jd : JD) : String :=
  let title := jsNorm jd.title
  let funcs := joinComma (jd.functions.map jsNorm)
  let skills := joinComma (jd.topHardSkills.map jsNorm)
  let outcomes := joinComma ((jd.keyOutcomes.map jsNorm).filter (· ≠ ""))
  let inds := joinComma (jd.industryHints.map jsNorm)
  let seniority := jsNorm jd.seniorityHint
  let langs := joinComma (jd.languages.map jsNorm)
  let eduMin := jsNorm jd.educationMin
  let workMode := jsNorm jd.workMode
  String.intercalate " | " (([
    "TITLE " ++ title,
    if funcs = "" then "" else "FUNCTIONS " ++ funcs,
    if skills = "" then "" else "SKILLS " ++ skills,
    if outcomes = "" then "" else "OUTCOMES " ++ outcomes,
    if inds = "" then "" else "INDUSTRIES " ++ inds,
    if seniority = "" then "" else "SENIORITY " ++ seniority,
    if langs = "" then "" else "LANGUAGES " ++ langs,
    if eduMin = "" then "" else "EDU_MIN " ++ eduMin,
    if workMode = "" then "" else "WORKMODE " ++ workMode
  ] : List String).filter (· ≠ ""))

/-- The `computeOverlaps` result record of the gate-based route. -/
structure Overlaps where
  functionsOverlap : List String
  skillsOverlap : List String
  languagesOverlap : List String
  yoeCheck : Bool
  educationCheck : Bool
  jdLangs : List String
  resumeSkills : List String
  jdSkills : List String
  resumeFunctions : List String
  jdFunctions : List String
  jdIndustries : List String
  resumeAchievements : List String
  jdOutcomes : List String
deriving DecidableEq, Repr

/-- `computeOverlaps({ overview, jd })` of the gate-based route. -/
def computeOverlaps (o : Overview) (jd : JD) : Overlaps :=
  { functionsOverlap := intersect o.functions jd.functions 3
    skillsOverlap := intersect o.topHardSkills jd.topHardSkills 10
    languagesOverlap := intersect o.languages jd.languages 3
    yoeCheck := match jd.yoeMin, o.yoe with
      | none, _ => true
      | some _, none => false
      | some m, some y => decide (m ≤ y)
    educationCheck := educationMeets o.educationLevel jd.educationMin
    jdLangs := jd.languages
    resumeSkills := o.topHardSkills
    jdSkills := jd.topHardSkills
    resumeFunctions := o.functions
    jdFunctions := jd.functions
    jdIndustries := jd.industryHints
    resumeAchievements := o.topAchievements.filter (· ≠ "")
    jdOutcomes := jd.keyOutcomes.filter (· ≠ "") }

/-- Loop body of `softSkillMatches`: for each remaining JD skill, the first
resume skill whose similarity reaches the threshold causes the JD token to
be added (the JS `Set` of strings deduplicates in insertion order). -/
def softSkillAux (sim : String → String → ℚ) (resumeNorm : List String) (θ : ℚ) :
    List String → List String → List String
  | [], acc => acc
  | jdSkill :: rest, acc =>
    let jdTok := normalizeTokenV2 jdSkill
    if jdTok = "" then softSkillAux sim resumeNorm θ rest acc
    else if resumeNorm.any (fun cv => decide (θ ≤ sim jdTok cv)) then
      softSkillAux sim resumeNorm θ rest
        (if acc.contains jdTok then acc else acc ++ [jdTok])
    else softSkillAux sim resumeNorm θ rest acc

/-- `softSkillMatches(resumeSkills, jdSkills, ..., threshold)` of the
gate-based route: JD skills in the exact normalized overlap are filtered
out before semantic matching. -/
def softSkillMatches (sim : String → String → ℚ)
    (resumeSkills jdSkills : List String) (θ : ℚ) : List String :=
  let exactOverlap := intersect resumeSkills jdSkills 100
  let jdFiltered := jdSkills.filter (fun s => !(exactOverlap.contains (normalizeTokenV2 s)))
  let resumeNorm := (resumeSkills.map normalizeTokenV2).filter (· ≠ "")
  softSkillAux sim resumeNorm θ jdFiltered []

/-- One recorded soft match `{ right, left, cosine }` of
`softStringMatches`. -/
structure SoftMatch where
  right : String
  left : String
  cosine : ℚ
deriving DecidableEq, Repr

/-- Loop body of `softStringMatches`: for each remaining JD term the inner
loop breaks at the FIRST resume term whose similarity reaches the
threshold; after each JD term the outer loop stops once `maxTotal` matches
are collected.  A JD term with empty normalization is skipped by
`continue`, bypassing the size check. -/
def softStringAux (sim : String → String → ℚ) (resumeNorm : List String)
    (θ : ℚ) (maxTotal : ℕ) : List String → List SoftMatch → List SoftMatch
  | [], acc => acc
  | jdTerm :: rest, acc =>
    let jdTok := normalizeTokenV2 jdTerm
    if jdTok = "" then softStringAux sim resumeNorm θ maxTotal rest acc
    else
      let acc2 :=
        match resumeNorm.find? (fun cvTerm => decide (θ ≤ sim jdTok (normalizeTokenV2 cvTerm))) with
        | some cvTerm =>
          let cvTok := normalizeTokenV2 cvTerm
          acc ++ [⟨jdTok, cvTok, round4 (sim jdTok cvTok)⟩]
        | none => acc
      if maxTotal ≤ acc2.length then acc2
      else softStringAux sim resumeNorm θ maxTotal rest acc2

/-- `softStringMatches(resumeTerms, jdTerms, ..., threshold, maxTotal)` of
the gate-based route. -/
def softStringMatches (sim : String → String → ℚ)
    (resumeTerms jdTerms : List String) (θ : ℚ) (maxTotal : ℕ) : List SoftMatch :=
  let exact := intersect resumeTerms jdTerms 100
  let jdFiltered := jdTerms.filter (fun s => !(exact.contains (normalizeTokenV2 s)))
  let resumeNorm := (resumeTerms.map normalizeTokenV2).filter (· ≠ "")
  softStringAux sim resumeNorm θ maxTotal jdFiltered []

/-- One pair of `matchOutcomesSemantically`. -/
structure OutcomePair where
  resumeAchievement : String
  jdOutcome : String
  cosine : ℚ
deriving DecidableEq, Repr

/-- The inner best-candidate scan of `matchOutcomesSemantically`:
`bestJ/bestCos` start at `-1`, every unused JD outcome strictly above the
running best replaces it (so ties keep the earliest index). -/
def bestOutcome (sim : String → String → ℚ) (a : String) (B : List String)
    (used : List ℕ) : ℤ × ℚ :=
  (List.range B.length).foldl
    (fun best j =>
      if used.contains j then best
      else
        let c := sim a (B.getD j "")
        if best.2 < c then ((j : ℤ), c) else best)
    (-1, -1)

/-- Outer loop of `matchOutcomesSemantically` over the resume achievements,
consuming each matched JD outcome (`usedB`). -/
def outcomeAux (sim : String → String → ℚ) (B : List String) (θ : ℚ) :
    List String → List ℕ → List OutcomePair → List OutcomePair
  | [], _, acc => acc
  | a :: restA, used, acc =>
    let bj := bestOutcome sim a B used
    if 0 ≤ bj.1 ∧ θ ≤ bj.2 then
      outcomeAux sim B θ restA (used ++ [bj.1.toNat])
        (acc ++ [⟨a, B.getD bj.1.toNat "", round4 bj.2⟩])
    else outcomeAux sim B θ restA used acc

/-- `matchOutcomesSemantically(resumeAchievements, jdOutcomes, embedFn)` of
the gate-based route, returning the matched pairs and the boost
`min(pairs.length * 2, 8)` (the `boostPerMatch || 2` / `maxBoost || 8`
fallbacks of the source). -/
def matchOutcomesSemantically (sim : String → String → ℚ)
    (resumeAchievements jdOutcomes : List String) (θ : ℚ) :
    List OutcomePair × ℤ :=
  let A := (resumeAchievements.map jsNorm).filter (· ≠ "")
  let B := (jdOutcomes.map jsNorm).filter (· ≠ "")
  if A = [] ∨ B = [] then ([], 0)
  else
    let pairs := outcomeAux sim B θ A [] []
    (pairs, min (pairs.length * 2) 8)

/-- `seniorityPenalty(jdSeniority, cvSeniority)` of the gate-based route. -/
def seniorityPenalty (jdSeniority cvSeniority : String) : ℤ :=
  let j := jsToLower jdSeniority
  let r := jsToLower cvSeniority
  if j = "mid" ∨ j = "junior" then
    if r = "lead/head" ∨ r = "director+" then -8 else 0
  else 0

/-- The experience-gate condition of the route:
`yoeMin != null && yoe != null && yoe < (yoeMin - 1)`. -/
def yoeGateTriggers (yoeMin yoe : Option ℚ) : Bool :=
  match yoeMin, yoe with
  | some m, some y => decide (y < m - 1)
  | _, _ => false

/-- The education-gate condition of the route: both levels present and of
known rank, with the candidate strictly below the requirement. -/
def eduGateTriggers (eduMin eduCand : String) : Bool :=
  eduMin != "" && eduCand != "" &&
    decide (-1 < educationRank eduCand) && decide (-1 < educationRank eduMin) &&
    decide (educationRank eduCand < educationRank eduMin)

/-- The `breakdown.overlaps` object of the response: the gate
short-circuit returns the spread of the full `computeOverlaps` record, the
normal path a summary built from the semantic matches. -/
inductive OverlapsOut where
  | full (o : Overlaps)
  | summary (functions : List String) (skills : List String)
      (languages : List String) (achievementsOverlap : List OutcomePair)
      (yoeCheck educationCheck : Bool)
deriving DecidableEq, Repr

/-- The match response of the gate-based route (score, reported cosine,
overlap breakdown and reasons trail; ids, signals and metadata echoes are
not modelled). -/
structure MatchResponse where
  score : ℤ
  cosine : ℚ
  overlaps : OverlapsOut
  boosts : List AmountReason
  penalties : List AmountReason
  gates : List GateReason
deriving DecidableEq, Repr

/-- The `/v1/match` handler of the gate-based route from the point where
both signal vectors exist: `cos` is their cosine similarity, `sim` the
per-term similarity oracle, `outcomeThreshold` the missing `SOFT_OUTCOME`
threshold. -/
def matchResponse (sim : String → String → ℚ) (outcomeThreshold : ℚ)
    (o : Overview) (jd : JD) (cos : ℚ) : MatchResponse :=
  let overlaps := computeOverlaps o jd
  if yoeGateTriggers jd.yoeMin o.yoe then
    { score := 0, cosine := round4 cos, overlaps := .full overlaps,
      boosts := [], penalties := [],
      gates := [.yoeBelowMin (o.yoe.getD 0) (jd.yoeMin.getD 0)] }
  else if eduGateTriggers jd.educationMin o.educationLevel then
    { score := 0, cosine := round4 cos, overlaps := .full overlaps,
      boosts := [], penalties := [],
      gates := [.educationBelowMin o.educationLevel jd.educationMin] }
  else
    let base := jsRound (cos * COSINE_WEIGHT)
    let (s1, b1) :=
      if overlaps.languagesOverlap ≠ [] then
        (base + 5, [⟨"languages", 5⟩])
      else (base, ([] : List AmountReason))
    let skillMatches := softSkillMatches sim overlaps.resumeSkills overlaps.jdSkills SOFT_SKILL_cosineThreshold
    let skillAmt := min ((skillMatches.length : ℤ) * 5) 10
    let (s2, b2) :=
      if skillMatches ≠ [] then (s1 + skillAmt, b1 ++ [⟨"skills_semantic", skillAmt⟩])
      else (s1, b1)
    let funcMatches := softStringMatches sim overlaps.resumeFunctions overlaps.jdFunctions SOFT_FUNC_cosineThreshold 20
    let funcAmt := min ((funcMatches.length : ℤ) * 2) 4
    let (s3, b3) :=
      if funcMatches ≠ [] ∧ 0 < funcAmt then
        (s2 + funcAmt, b2 ++ [⟨"functions_semantic", funcAmt⟩])
      else (s2, b2)
    let outcome := matchOutcomesSemantically sim overlaps.resumeAchievements overlaps.jdOutcomes outcomeThreshold
    let (s4, b4) :=
      if 0 < outcome.2 then (s3 + outcome.2, b3 ++ [⟨"outcomes_semantic", outcome.2⟩])
      else (s3, b3)
    let sPen := seniorityPenalty jd.seniorityHint o.seniorityHint
    let (s5, p1) :=
      if sPen ≠ 0 then (s4 + sPen, [⟨"seniority_mismatch", sPen⟩])
      else (s4, ([] : List AmountReason))
    let hasLangReq := (overlaps.jdLangs.filter (· ≠ "")).length ≠ 0
    let (s6, p2) :=
      if hasLangReq ∧ overlaps.languagesOverlap.length = 0 then
        (s5 + (-10), p1 ++ [⟨"language_missing", -10⟩])
      else (s5, p1)
    { score := clamp100 s6, cosine := round4 cos,
      overlaps := .summary (funcMatches.map (·.right)) skillMatches
        overlaps.languagesOverlap outcome.1 overlaps.yoeCheck overlaps.educationCheck,
      boosts := b4, penalties := p2, gates := [] }

end MatchSemantic

/-! ### The boost-based match route (`src/routes/match.js`)

The current `routes/match.js` computes `boostedScore(cos, overlaps, jd,
resume)`: base `round(cos * 80)`, additive boosts for function/skill
overlaps, a lead-gen presence boost and an industry-alignment boost,
language/seniority/lead-gen penalties with a total-penalty floor of `-20`,
a cap of 75 when there is no exact skill overlap, and a final `[0,100]`
clamp.  `boostedScore` receives the overlap lists already computed by
`intersections`; they are modelled as the record `OverlapsB` carrying the
fields `boostedScore` reads. -/

namespace MatchBoosted

/-- The fields of the `intersections` result that `boostedScore` and
`languageGatePenalty` consume (`jLangs`/`rLangs` are the normalized,
deduplicated language lists). -/
structure OverlapsB where
  funcHit : List String := []
  skillHit : List String := []
  jLangs : List String := []
  rLangs : List String := []
  jdLeadgenRequired : Bool := false
  resumeLeadgenPresent : Bool := false
deriving DecidableEq, Repr

/-- `normArr` of `routes/match.js`: trim, lower-case, drop empties,
deduplicate via `Set`. -/
def normArr (arr : List String) : List String :=
  jsSetDedup ((arr.map (fun x => jsToLower (jsNorm x))).filter (· ≠ ""))

/-- `seniorityPenalty(jdSeniority, cvSeniority)` of `routes/match.js`. -/
def seniorityPenalty (jdSeniority cvSeniority : String) : ℤ :=
  let j := jsToLower jdSeniority
  let r := jsToLower cvSeniority
  if j = "mid" then
    if r = "junior" then -12
    else if r = "lead/head" ∨ r = "director+" then -8
    else 0
  else 0

/-- The `{ penalty, mode }` result of `languageGatePenalty`. -/
structure LangPenalty where
  penalty : ℤ
  mode : String
deriving DecidableEq, Repr

/-- `languageGatePenalty(jLangs, rLangs)` of `routes/match.js`: no
requirement → no penalty; any overlap → no penalty; otherwise `-4` when
the only required language is English, else `-10`. -/
def languageGatePenalty (jLangs rLangs : List String) : LangPenalty :=
  if jLangs = [] then ⟨0, "none"⟩
  else if jLangs.any (fun l => rLangs.contains l) then ⟨0, "ok"⟩
  else if jLangs.length = 1 ∧ (jLangs.getD 0 "") ≠ "" ∧ jsToLower (jLangs.getD 0 "") = "english" then
    ⟨-4, "soft"⟩
  else ⟨-10, "strict"⟩

/-- `textContainsAny(text, terms)` of `routes/match.js`. -/
def textContainsAny (text : String) (terms : List String) : Bool :=
  let t := jsToLower (jsNorm text)
  terms.any (fun k => includes t k)

/-- `industryAlignmentBoost(jd, resume)` of `routes/match.js`: `+5` when
any industry hint occurs as a substring of the employer descriptor, the
employer name or an achievement text. -/
def industryAlignmentBoost (jd : JD) (resume : Overview) : ℤ :=
  let inds := jd.industryHints.map (fun x => jsToLower (jsNorm x))
  if inds = [] then 0
  else
    let employerDesc := jsToLower (jsNorm resume.employerDescriptor)
    let employer := jsToLower (jsNorm resume.employer)
    let texts := [employerDesc, employer] ++ resume.topAchievements.map (fun a => jsToLower (jsNorm a))
    if inds.any (fun ind => texts.any (fun t => t ≠ "" && includes t ind)) then 5 else 0

/-- The function-overlap boost `Math.min(10, funcHit.length * 5)`. -/
def funcBoostOf (o : OverlapsB) : ℤ := min 10 ((o.funcHit.length : ℤ) * 5)

/-- The skill-overlap boost `Math.min(20, skillHit.length * 4)`. -/
def skillBoostOf (o : OverlapsB) : ℤ := min 20 ((o.skillHit.length : ℤ) * 4)

/-- The total `boostSum` accumulated by `boostedScore`. -/
def boostSum (o : OverlapsB) (jd : JD) (resume : Overview) : ℤ :=
  funcBoostOf o + skillBoostOf o + (if o.resumeLeadgenPresent then 8 else 0)
    + industryAlignmentBoost jd resume

/-- The total `penaltySum` accumulated by `boostedScore` before the `-20`
floor. -/
def penaltySumRaw (o : OverlapsB) (jd : JD) (resume : Overview) : ℤ :=
  (languageGatePenalty o.jLangs o.rLangs).penalty
    + seniorityPenalty jd.seniorityHint resume.seniorityHint
    + (if o.jdLeadgenRequired && !o.resumeLeadgenPresent then -6 else 0)

/-- The `{ score, reasons }` result of `boostedScore`. -/
structure ScoreResult where
  score : ℤ
  boosts : List AmountReason
  penalties : List AmountReason
  gates : List GateReason
deriving DecidableEq, Repr

/-- `boostedScore(cos, overlaps, jd, resume)` of `routes/match.js`. -/
def boostedScore (cos : ℚ) (o : OverlapsB) (jd : JD) (resume : Overview) : ScoreResult :=
  let base := jsRound (cos * 80)
  let indBoost := industryAlignmentBoost jd resume
  let boosts :=
    (if funcBoostOf o ≠ 0 then [⟨"functions", funcBoostOf o⟩] else ([] : List AmountReason))
    ++ (if skillBoostOf o ≠ 0 then [⟨"skills", skillBoostOf o⟩] else [])
    ++ (if o.resumeLeadgenPresent then [⟨"leadgen_present", (8 : ℤ)⟩] else [])
    ++ (if indBoost ≠ 0 then [⟨"industry", indBoost⟩] else [])
  let langPen := languageGatePenalty o.jLangs o.rLangs
  let sPen := seniorityPenalty jd.seniorityHint resume.seniorityHint
  let penalties :=
    (if langPen.penalty ≠ 0 then [⟨"language_gate", langPen.penalty⟩] else ([] : List AmountReason))
    ++ (if sPen ≠ 0 then [⟨"seniority_mismatch", sPen⟩] else [])
    ++ (if o.jdLeadgenRequired && !o.resumeLeadgenPresent then [⟨"leadgen_missing", (-6 : ℤ)⟩] else [])
  let pSum := penaltySumRaw o jd resume
  let gates1 : List GateReason :=
    if pSum < -20 then [.penaltyCap (-20) pSum] else []
  let pCapped := if pSum < -20 then -20 else pSum
  let score1 := base + boostSum o jd resume + pCapped
  let gates2 := gates1 ++
    (if o.skillHit.length = 0 ∧ 75 < score1 then [.skillCap 75] else [])
  let score2 := if o.skillHit.length = 0 then min score1 75 else score1
  { score := clamp100 score2, boosts := boosts, penalties := penalties, gates := gates2 }

end MatchBoosted

/-! ### The embedding phase of the match request

The handler embeds both signals (`Promise.all` over two `getEmbedding`
calls against the shared cache) and fails the whole request when either
call rejects.  The cosine of the two signal vectors, a `Math.sqrt`
computation over provider floats, is the oracle `cosFn`. -/

/-- The `/v1/match` handler of the gate-based route from signal building
onward: embed the resume and JD signals through the cache (resume first;
the source awaits both via `Promise.all` against the same module-level
cache), then score.  Returns the response or the propagated provider
error, together with the final cache state. -/
def matchPipeline (provider : String → Except String (List ℚ)) (model : String)
    (now : ℤ) (cache : EmbedCache) (resumeId jdHash : String)
    (cosFn : List ℚ → List ℚ → ℚ) (sim : String → String → ℚ)
    (outcomeThreshold : ℚ) (o : Overview) (jd : JD) :
    Except String MatchSemantic.MatchResponse × EmbedCache :=
  let resumeSignal := MatchSemantic.buildResumeSignal o
  let jdSignal := MatchSemantic.buildJdSignal jd
  match getEmbedding provider model now cache resumeSignal
      (signalCacheKey model "resume" resumeId resumeSignal) with
  | (.error e, c1, _) => (.error e, c1)
  | (.ok rVec, c1, _) =>
    match getEmbedding provider model now c1 jdSignal
        (signalCacheKey model "jd" jdHash jdSignal) with
    | (.error e, c2, _) => (.error e, c2)
    | (.ok jVec, c2, _) =>
      (.ok (MatchSemantic.matchResponse sim outcomeThreshold o jd (cosFn rVec jVec)), c2)

/-! ### Concrete instances used by the closed check theorems -/

/-- A trivial similarity oracle. -/
def simZero : String → String → ℚ := fun _ _ => 0

/-- A candidate with three years of experience. -/
def ovGate : Overview := { yoe := some 3 }

/-- A job requiring at least five years of experience. -/
def jdGate : JD := { yoeMin := some 5 }

/-- Overlaps in every boost category of the boost-based route (two function
hits, one exact skill hit, an English/English language overlap, lead-gen
present on both sides). -/
def ovClamp : MatchBoosted.OverlapsB :=
  { funcHit := ["sales", "marketing"], skillHit := ["excel"],
    jLangs := ["english"], rLangs := ["english"],
    jdLeadgenRequired := true, resumeLeadgenPresent := true }

/-- A job whose industry hint matches the sample employer. -/
def jdClamp : JD := { seniorityHint := "Mid", industryHints := ["tech"] }

/-- A resume whose employer matches the sample job's industry hint. -/
def rsClamp : Overview := { seniorityHint := "Mid", employer := "TechCorp" }

/-- Full-boost overlaps except that the exact skill overlap is empty. -/
def ovCap : MatchBoosted.OverlapsB :=
  { funcHit := ["sales", "marketing"], skillHit := [],
    jLangs := ["english"], rLangs := ["english"],
    jdLeadgenRequired := true, resumeLeadgenPresent := true }

/-- A one-entry embedding cache holding vector `[1, 2]` stored at time 0
under model "m". -/
def cacheOne : EmbedCache := [("k", ⟨[1, 2], 0, "m"⟩)]

/-- A provider that always fails. -/
def providerFail : String → Except String (List ℚ) := fun _ => .error "boom"

/-- A provider that always returns `[1]`. -/
def providerOne : String → Except String (List ℚ) := fun _ => .ok [1]

/-- A trivial cosine oracle. -/
def cosZero : List ℚ → List ℚ → ℚ := fun _ _ => 0

/-! ### Spec-side definitions used by amended claims and counterexamples -/

/-- The fixed-order labeled optional resume segments (everything after
`TITLE`) of the amended claim. -/
def resumeTail (o : Overview) : List (String × String) :=
  [("FUNCTIONS", MatchSemantic.joinComma (o.functions.map jsNorm)),
   ("SKILLS", MatchSemantic.joinComma (o.topHardSkills.map jsNorm)),
   ("OUTCOMES", MatchSemantic.joinComma ((o.topAchievements.map jsNorm).filter (· ≠ ""))),
   ("INDUSTRIES", ""),
   ("SENIORITY", jsNorm o.seniorityHint),
   ("LANGUAGES", MatchSemantic.joinComma (o.languages.map jsNorm)),
   ("EDU", jsNorm o.educationLevel),
   ("YOE", match o.yoe with | none => "" | some q => toString q)]

/-- The fixed-order labeled resume segments of the amended claim. -/
def resumeSegments (o : Overview) : List (String × String) :=
  ("TITLE", jsNorm o.title) :: resumeTail o

/-- The fixed-order labeled optional JD segments (everything after
`TITLE`) of the amended claim. -/
def jdTail (jd : JD) : List (String × String) :=
  [("FUNCTIONS", MatchSemantic.joinComma (jd.functions.map jsNorm)),
   ("SKILLS", MatchSemantic.joinComma (jd.topHardSkills.map jsNorm)),
   ("OUTCOMES", MatchSemantic.joinComma ((jd.keyOutcomes.map jsNorm).filter (· ≠ ""))),
   ("INDUSTRIES", MatchSemantic.joinComma (jd.industryHints.map jsNorm)),
   ("SENIORITY", jsNorm jd.seniorityHint),
   ("LANGUAGES", MatchSemantic.joinComma (jd.languages.map jsNorm)),
   ("EDU_MIN", jsNorm jd.educationMin),
   ("WORKMODE", jsNorm jd.workMode)]

/-- The fixed-order labeled JD segments of the amended claim. -/
def jdSegments (jd : JD) : List (String × String) :=
  ("TITLE", jsNorm jd.title) :: jdTail jd

/-- Spec-side rendering of the amended claim: keep exactly the segments
whose value is non-empty, plus the `TITLE` segment unconditionally, in the
fixed label order, each rendered as `LABEL value`, pipe-delimited. -/
def renderSegments (segs : List (String × String)) : String :=
  String.intercalate " | "
    ((segs.filter (fun p => p.1 = "TITLE" ∨ p.2 ≠ "")).map
      (fun p => p.1 ++ " " ++ p.2))

/-- Similarity oracle for the top-1 counterexample: against target
"gamma", source "alpha" scores 0.6 and source "beta" scores 0.9. -/
def simCE : String → String → ℚ := fun a b =>
  if a = "gamma" ∧ b = "alpha" then Rat.divInt 3 5
  else if a = "gamma" ∧ b = "beta" then Rat.divInt 9 10
  else 0

/-- The semantic match recorded for one remaining JD term: the FIRST
normalized resume term in input order whose similarity reaches the
threshold, if any. -/
def jdTermMatch (sim : String → String → ℚ) (resumeNorm : List String)
    (θ : ℚ) (jdTerm : String) : Option MatchSemantic.SoftMatch :=
  let jdTok := normalizeTokenV2 jdTerm
  if jdTok = "" then none
  else
    match resumeNorm.find? (fun cvTerm => decide (θ ≤ sim jdTok (normalizeTokenV2 cvTerm))) with
    | some cvTerm =>
      some ⟨jdTok, normalizeTokenV2 cvTerm, round4 (sim jdTok (normalizeTokenV2 cvTerm))⟩
    | none => none

/-- Spec-side (amended) form of `softStringMatches`: drop JD terms whose
normalized form is empty or lies in the exact normalized overlap, give
each remaining JD term its first-over-threshold resume partner, and keep
the first `maxTotal` matches. -/
def firstOverThresholdMatches (sim : String → String → ℚ)
    (resumeTerms jdTerms : List String) (θ : ℚ) (maxTotal : ℕ) :
    List MatchSemantic.SoftMatch :=
  let exact := intersect resumeTerms jdTerms 100
  let resumeNorm := (resumeTerms.map normalizeTokenV2).filter (· ≠ "")
  (jdTerms.filterMap (fun jdTerm =>
    if exact.contains (normalizeTokenV2 jdTerm) then none
    else jdTermMatch sim resumeNorm θ jdTerm)).take maxTotal

/-! ### Claim theorems -/

theorem clamp100_nonneg (s : ℤ) : 0 ≤ clamp100 s := le_max_left 0 _

theorem clamp100_le (s : ℤ) : clamp100 s ≤ 100 :=
  max_le (by norm_num) (min_le_left 100 s)


/-- The experience gate fires on `yoeMin = 5`, `yoe = 3`. -/
theorem yoeGate_5_3 : MatchSemantic.yoeGateTriggers (some 5) (some 3) = true := by
  simp only [MatchSemantic.yoeGateTriggers, decide_eq_true_eq]
  norm_num

/-- The experience gate does not fire on `yoeMin = 5`, `yoe = 4`. -/
theorem yoeGate_5_4 : MatchSemantic.yoeGateTriggers (some 5) (some 4) = false := by
  simp only [MatchSemantic.yoeGateTriggers, decide_eq_false_iff_not]
  norm_num

/-- The `reasons.gates` list of a non-gated response is empty. -/
theorem matchResponse_gates_nogate (sim : String → String → ℚ) (θ : ℚ)
    (o : Overview) (jd : JD) (cos : ℚ)
    (hy : MatchSemantic.yoeGateTriggers jd.yoeMin o.yoe = false)
    (he : MatchSemantic.eduGateTriggers jd.educationMin o.educationLevel = false) :
    (MatchSemantic.matchResponse sim θ o jd cos).gates = [] := by
  unfold MatchSemantic.matchResponse
  simp [hy, he]

/-- Every response score of the gate-based route is 0 or a clamped value. -/
theorem matchResponse_score_shape (sim : String → String → ℚ) (θ : ℚ)
    (o : Overview) (jd : JD) (cos : ℚ) :
    (MatchSemantic.matchResponse sim θ o jd cos).score = 0 ∨
    ∃ s, (MatchSemantic.matchResponse sim θ o jd cos).score = clamp100 s := by
  unfold MatchSemantic.matchResponse
  cases hy : MatchSemantic.yoeGateTriggers jd.yoeMin o.yoe with
  | true => simp [hy]
  | false =>
    cases he : MatchSemantic.eduGateTriggers jd.educationMin o.educationLevel with
    | true => simp [hy, he]
    | false =>
      simp only [hy, he, Bool.false_eq_true, if_false]
      exact Or.inr ⟨_, rfl⟩

/-- C1: whenever the experience or the education gate triggers, the
gate-based route short-circuits the final score to exactly 0, applies no
boosts and no penalties, and still reports the 4-decimal cosine and the
full overlap record together with the triggered gate. -/
theorem gate_short_circuit_zero (sim : String → String → ℚ) (θ : ℚ)
    (o : Overview) (jd : JD) (cos : ℚ)
    (h : MatchSemantic.yoeGateTriggers jd.yoeMin o.yoe = true ∨
      MatchSemantic.eduGateTriggers jd.educationMin o.educationLevel = true) :
    (MatchSemantic.matchResponse sim θ o jd cos).score = 0 ∧
    (MatchSemantic.matchResponse sim θ o jd cos).boosts = [] ∧
    (MatchSemantic.matchResponse sim θ o jd cos).penalties = [] ∧
    (MatchSemantic.matchResponse sim θ o jd cos).cosine = round4 cos ∧
    (MatchSemantic.matchResponse sim θ o jd cos).overlaps =
      .full (MatchSemantic.computeOverlaps o jd) ∧
    (MatchSemantic.matchResponse sim θ o jd cos).gates ≠ [] := by
  unfold MatchSemantic.matchResponse
  rcases h with h | h
  · simp [h]
  · cases hy : MatchSemantic.yoeGateTriggers jd.yoeMin o.yoe
    · simp [hy, h]
    · simp [hy]

/-- Closed instance of the gate short-circuit (experience gate, `yoe = 3`
versus `yoeMin = 5`). -/
theorem gate_short_circuit_zero_check :
    (MatchSemantic.matchResponse simZero 0 ovGate jdGate (9/10)).score = 0 ∧
    (MatchSemantic.matchResponse simZero 0 ovGate jdGate (9/10)).boosts = [] ∧
    (MatchSemantic.matchResponse simZero 0 ovGate jdGate (9/10)).penalties = [] ∧
    (MatchSemantic.matchResponse simZero 0 ovGate jdGate (9/10)).cosine = round4 (9/10) ∧
    (MatchSemantic.matchResponse simZero 0 ovGate jdGate (9/10)).overlaps =
      .full (MatchSemantic.computeOverlaps ovGate jdGate) ∧
    (MatchSemantic.matchResponse simZero 0 ovGate jdGate (9/10)).gates ≠ [] :=
  gate_short_circuit_zero simZero 0 ovGate jdGate (9/10) (Or.inl yoeGate_5_3)

/-- C4: the experience gate triggers exactly when both `yoeMin` and `yoe`
are present and `yoe < yoeMin - 1` (tolerance 1); in particular `yoe = 3`
against `yoeMin = 5` triggers it (score 0 with the `yoe_below_min` outcome
`{yoe: 3, yoeMin: 5}` recorded), `yoe = 4` does not, and a missing value on
either side never triggers it. -/
theorem yoe_gate_characterization :
    (∀ ym y : Option ℚ, MatchSemantic.yoeGateTriggers ym y = true ↔
      ∃ m yy : ℚ, ym = some m ∧ y = some yy ∧
        yy < m - MatchSemantic.GATES_yoeToleranceYears) ∧
    MatchSemantic.yoeGateTriggers (some 5) (some 3) = true ∧
    MatchSemantic.yoeGateTriggers (some 5) (some 4) = false ∧
    (∀ y, MatchSemantic.yoeGateTriggers none y = false) ∧
    (∀ m, MatchSemantic.yoeGateTriggers (some m) none = false) ∧
    (∀ sim θ o jd cos, jd.yoeMin = some 5 → o.yoe = some 3 →
      (MatchSemantic.matchResponse sim θ o jd cos).score = 0 ∧
      (MatchSemantic.matchResponse sim θ o jd cos).gates = [.yoeBelowMin 3 5]) ∧
    (∀ sim θ o jd cos, jd.yoeMin = some 5 → o.yoe = some 4 →
      ∀ g ∈ (MatchSemantic.matchResponse sim θ o jd cos).gates,
        ∀ yv mv, g ≠ GateReason.yoeBelowMin yv mv) := by
  refine ⟨?_, yoeGate_5_3, yoeGate_5_4, fun y => rfl, fun m => rfl, ?_, ?_⟩
  · intro ym y
    cases ym with
    | none => simp [MatchSemantic.yoeGateTriggers]
    | some m =>
      cases y with
      | none => simp [MatchSemantic.yoeGateTriggers]
      | some yy =>
        simp [MatchSemantic.yoeGateTriggers, MatchSemantic.GATES_yoeToleranceYears]
  · intro sim θ o jd cos hm hy
    unfold MatchSemantic.matchResponse
    rw [hm, hy]
    simp [yoeGate_5_3]
  · intro sim θ o jd cos hm hy
    have ht : MatchSemantic.yoeGateTriggers jd.yoeMin o.yoe = false := by
      rw [hm, hy]; exact yoeGate_5_4
    cases he : MatchSemantic.eduGateTriggers jd.educationMin o.educationLevel with
    | false =>
      rw [matchResponse_gates_nogate sim θ o jd cos ht he]
      intro g hg
      simp at hg
    | true =>
      unfold MatchSemantic.matchResponse
      simp only [ht, he, Bool.false_eq_true, if_false, if_true]
      intro g hg yv mv
      simp at hg
      subst hg
      simp

/-- Closed instance of the C4 scenario (`yoeMin = 5`, `yoe = 3` gives score
0 and the recorded outcome). -/
theorem yoe_gate_characterization_check :
    (MatchSemantic.matchResponse simZero 0 ovGate jdGate (9/10)).gates =
      [.yoeBelowMin 3 5] :=
  (yoe_gate_characterization.2.2.2.2.2.1 simZero 0 ovGate jdGate (9/10) rfl rfl).2

/-- The `-20` penalty floor as a `max`. -/
theorem ite_penalty_floor (p : ℤ) : (if p < -20 then -20 else p) = max p (-20) := by
  rcases lt_or_le p (-20) with h | h
  · rw [if_pos h, max_eq_right h.le]
  · rw [if_neg (not_lt.mpr h), max_eq_left h]

/-- Closed form of the boost-based score: base plus boosts plus the floored
penalty sum, capped at 75 when the exact skill overlap is empty, then
clamped to `[0, 100]`. -/
theorem boostedScore_score_eq (cos : ℚ) (o : MatchBoosted.OverlapsB)
    (jd : JD) (rs : Overview) :
    (MatchBoosted.boostedScore cos o jd rs).score =
      clamp100 (if o.skillHit.length = 0 then
        min (jsRound (cos * 80) + MatchBoosted.boostSum o jd rs +
          max (MatchBoosted.penaltySumRaw o jd rs) (-20)) 75
      else jsRound (cos * 80) + MatchBoosted.boostSum o jd rs +
          max (MatchBoosted.penaltySumRaw o jd rs) (-20)) := by
  simp only [MatchBoosted.boostedScore]
  rw [ite_penalty_floor]

/-- C2: both score composers yield an integer (the model's `ℤ` codomain)
in `[0, 100]` for every input; on the sample full-overlap input with
cosine 1 the boost-based score clamps to exactly 100 although base plus
raw boosts reach 107. -/
theorem final_score_bounds :
    (∀ sim θ o jd cos, 0 ≤ (MatchSemantic.matchResponse sim θ o jd cos).score ∧
      (MatchSemantic.matchResponse sim θ o jd cos).score ≤ 100) ∧
    (∀ cos ov jd rs, 0 ≤ (MatchBoosted.boostedScore cos ov jd rs).score ∧
      (MatchBoosted.boostedScore cos ov jd rs).score ≤ 100) ∧
    (MatchBoosted.boostedScore 1 ovClamp jdClamp rsClamp).score = 100 ∧
    100 < jsRound ((1 : ℚ) * 80) + MatchBoosted.boostSum ovClamp jdClamp rsClamp := by
  have hb : jsRound ((1 : ℚ) * 80) = 80 := by norm_num [jsRound]
  have hsum : MatchBoosted.boostSum ovClamp jdClamp rsClamp = 27 := by decide
  have hpen : MatchBoosted.penaltySumRaw ovClamp jdClamp rsClamp = 0 := by decide
  refine ⟨?_, ?_, ?_, by rw [hb, hsum]; norm_num⟩
  · intro sim θ o jd cos
    rcases matchResponse_score_shape sim θ o jd cos with h | ⟨s, h⟩
    · rw [h]; exact ⟨le_refl 0, by norm_num⟩
    · rw [h]; exact ⟨clamp100_nonneg s, clamp100_le s⟩
  · intro cos ov jd rs
    rw [boostedScore_score_eq]
    exact ⟨clamp100_nonneg _, clamp100_le _⟩
  · rw [boostedScore_score_eq, hb, hsum, hpen]
    norm_num [clamp100, show ovClamp.skillHit = ["excel"] from rfl]

/-- Closed form of the boost-based `reasons.gates` trail: an optional
penalty-cap entry followed by an optional skill-cap entry. -/
theorem boostedScore_gates_eq (cos : ℚ) (o : MatchBoosted.OverlapsB)
    (jd : JD) (rs : Overview) :
    (MatchBoosted.boostedScore cos o jd rs).gates =
      (if MatchBoosted.penaltySumRaw o jd rs < -20 then
        [GateReason.penaltyCap (-20) (MatchBoosted.penaltySumRaw o jd rs)] else []) ++
      (if o.skillHit.length = 0 ∧ 75 < jsRound (cos * 80) + MatchBoosted.boostSum o jd rs +
          max (MatchBoosted.penaltySumRaw o jd rs) (-20) then
        [GateReason.skillCap 75] else []) := by
  simp only [MatchBoosted.boostedScore]
  rw [ite_penalty_floor]

/-- C10: with an empty exact skill overlap the boost-based score never
exceeds 75; it equals the clamp of `min(raw, 75)` where `raw` already
includes the `-20` penalty floor (so the skill cap sits after the penalty
cap and before the final `[0,100]` clamp), and the `skill_cap` reason is
recorded exactly when the cap lowers the score. -/
theorem skill_cap_bound (cos : ℚ) (o : MatchBoosted.OverlapsB) (jd : JD)
    (rs : Overview) (h : o.skillHit = []) :
    (MatchBoosted.boostedScore cos o jd rs).score ≤ 75 ∧
    (MatchBoosted.boostedScore cos o jd rs).score =
      clamp100 (min (jsRound (cos * 80) + MatchBoosted.boostSum o jd rs +
        max (MatchBoosted.penaltySumRaw o jd rs) (-20)) 75) ∧
    (GateReason.skillCap 75 ∈ (MatchBoosted.boostedScore cos o jd rs).gates ↔
      75 < jsRound (cos * 80) + MatchBoosted.boostSum o jd rs +
        max (MatchBoosted.penaltySumRaw o jd rs) (-20)) := by
  have hl : o.skillHit.length = 0 := by rw [h]; rfl
  refine ⟨?_, ?_, ?_⟩
  · rw [boostedScore_score_eq, if_pos hl]
    exact max_le (by norm_num)
      (le_trans (min_le_right 100 _) (min_le_right _ 75))
  · rw [boostedScore_score_eq, if_pos hl]
  · rw [boostedScore_gates_eq]
    by_cases hp : MatchBoosted.penaltySumRaw o jd rs < -20 <;>
      by_cases hr : 75 < jsRound (cos * 80) + MatchBoosted.boostSum o jd rs +
        max (MatchBoosted.penaltySumRaw o jd rs) (-20) <;>
      simp [hl, hp, hr]

/-- Closed instance of the skill cap: full boosts, cosine 1, but no exact
skill overlap, so the raw total 103 is capped and the cap recorded. -/
theorem skill_cap_bound_check :
    (MatchBoosted.boostedScore 1 ovCap jdClamp rsClamp).score ≤ 75 ∧
    (MatchBoosted.boostedScore 1 ovCap jdClamp rsClamp).score =
      clamp100 (min (jsRound ((1 : ℚ) * 80) + MatchBoosted.boostSum ovCap jdClamp rsClamp +
        max (MatchBoosted.penaltySumRaw ovCap jdClamp rsClamp) (-20)) 75) ∧
    (GateReason.skillCap 75 ∈ (MatchBoosted.boostedScore 1 ovCap jdClamp rsClamp).gates ↔
      75 < jsRound ((1 : ℚ) * 80) + MatchBoosted.boostSum ovCap jdClamp rsClamp +
        max (MatchBoosted.penaltySumRaw ovCap jdClamp rsClamp) (-20)) :=
  skill_cap_bound 1 ovCap jdClamp rsClamp rfl

/-- The language penalty is nonzero exactly when the job requires at least
one language and none of them occurs among the candidate languages. -/
theorem languageGatePenalty_ne_zero_iff (jL rL : List String) :
    (MatchBoosted.languageGatePenalty jL rL).penalty ≠ 0 ↔
      jL ≠ [] ∧ ∀ l ∈ jL, l ∉ rL := by
  unfold MatchBoosted.languageGatePenalty
  by_cases h1 : jL = []
  · rw [if_pos h1]
    simp [h1]
  · rw [if_neg h1]
    by_cases h2 : jL.any (fun l => rL.contains l) = true
    · rw [if_pos h2]
      apply iff_of_false (by simp)
      rintro ⟨-, hall⟩
      simp only [List.any_eq_true, List.contains_eq_any_beq, beq_iff_eq] at h2
      obtain ⟨x, hx, y, hy, hxy⟩ := h2
      exact hall x hx (hxy ▸ hy)
    · rw [if_neg h2]
      have hno : ∀ l ∈ jL, l ∉ rL := by
        intro l hl hmem
        exact h2 (by
          simp only [List.any_eq_true, List.contains_eq_any_beq, beq_iff_eq]
          exact ⟨l, hl, l, hmem, rfl⟩)
      by_cases h3 : jL.length = 1 ∧ jL.getD 0 "" ≠ "" ∧ jsToLower (jL.getD 0 "") = "english"
      · rw [if_pos h3]
        exact iff_of_true (by norm_num) ⟨h1, hno⟩
      · rw [if_neg h3]
        exact iff_of_true (by norm_num) ⟨h1, hno⟩

/-- Closed form of the boost-based `reasons.penalties` trail. -/
theorem boostedScore_penalties_eq (cos : ℚ) (o : MatchBoosted.OverlapsB)
    (jd : JD) (rs : Overview) :
    (MatchBoosted.boostedScore cos o jd rs).penalties =
      (if (MatchBoosted.languageGatePenalty o.jLangs o.rLangs).penalty ≠ 0 then
        [⟨"language_gate", (MatchBoosted.languageGatePenalty o.jLangs o.rLangs).penalty⟩] else []) ++
      (if MatchBoosted.seniorityPenalty jd.seniorityHint rs.seniorityHint ≠ 0 then
        [⟨"seniority_mismatch", MatchBoosted.seniorityPenalty jd.seniorityHint rs.seniorityHint⟩] else []) ++
      (if o.jdLeadgenRequired && !o.resumeLeadgenPresent then
        [⟨"leadgen_missing", (-6 : ℤ)⟩] else []) := by
  simp only [MatchBoosted.boostedScore]

/-- C7: the language-missing penalty of the boost-based route is applied
exactly when the job lists at least one required language and the
candidate languages have no overlap with them; its magnitude is `-4` when
the only required language is English and `-10` otherwise, and `0` when
there is an overlap or no requirement. -/
theorem language_penalty_characterization :
    (∀ jL rL : List String, jL = [] →
      (MatchBoosted.languageGatePenalty jL rL).penalty = 0) ∧
    (∀ jL rL : List String, (∃ l, l ∈ jL ∧ l ∈ rL) →
      (MatchBoosted.languageGatePenalty jL rL).penalty = 0) ∧
    (∀ (rL : List String) (x : String), x ∉ rL → x ≠ "" → jsToLower x = "english" →
      MatchBoosted.languageGatePenalty [x] rL = ⟨-4, "soft"⟩) ∧
    (∀ jL rL : List String, jL ≠ [] → (∀ l ∈ jL, l ∉ rL) →
      ¬(jL.length = 1 ∧ jL.getD 0 "" ≠ "" ∧ jsToLower (jL.getD 0 "") = "english") →
      MatchBoosted.languageGatePenalty jL rL = ⟨-10, "strict"⟩) ∧
    (∀ (cos : ℚ) (o : MatchBoosted.OverlapsB) (jd : JD) (rs : Overview),
      (o.jLangs ≠ [] ∧ ∀ l ∈ o.jLangs, l ∉ o.rLangs) ↔
      ∃ e ∈ (MatchBoosted.boostedScore cos o jd rs).penalties,
        e.type = "language_gate") := by
  have hany : ∀ (jL rL : List String), (∀ l ∈ jL, l ∉ rL) →
      (jL.any (fun l => rL.contains l)) ≠ true := by
    intro jL rL hno hc
    simp only [List.any_eq_true, List.contains_eq_any_beq, beq_iff_eq] at hc
    obtain ⟨x, hx, y, hy, hxy⟩ := hc
    exact hno x hx (hxy ▸ hy)
  refine ⟨?_, ?_, ?_, ?_, ?_⟩
  · intro jL rL h
    simp [MatchBoosted.languageGatePenalty, h]
  · intro jL rL ⟨l, hl, hr⟩
    unfold MatchBoosted.languageGatePenalty
    by_cases h1 : jL = []
    · rw [if_pos h1]
    · rw [if_neg h1, if_pos (by
        simp only [List.any_eq_true, List.contains_eq_any_beq, beq_iff_eq]
        exact ⟨l, hl, l, hr, rfl⟩)]
  · intro rL x hx hne hlow
    unfold MatchBoosted.languageGatePenalty
    rw [if_neg (by simp), if_neg (hany [x] rL (by simpa using hx)),
      if_pos ⟨rfl, by simpa using hne, by simpa using hlow⟩]
  · intro jL rL h1 hno h3
    unfold MatchBoosted.languageGatePenalty
    rw [if_neg h1, if_neg (hany jL rL hno), if_neg h3]
  · intro cos o jd rs
    rw [boostedScore_penalties_eq,
      ← languageGatePenalty_ne_zero_iff o.jLangs o.rLangs]
    constructor
    · intro hne
      refine ⟨⟨"language_gate", (MatchBoosted.languageGatePenalty o.jLangs o.rLangs).penalty⟩,
        ?_, rfl⟩
      rw [if_pos hne]
      exact List.mem_append_left _ (List.mem_append_left _ (List.mem_singleton_self _))
    · rintro ⟨e, he, hty⟩
      by_cases hne : (MatchBoosted.languageGatePenalty o.jLangs o.rLangs).penalty ≠ 0
      · exact hne
      · exfalso
        rw [if_neg hne] at he
        by_cases hs : MatchBoosted.seniorityPenalty jd.seniorityHint rs.seniorityHint ≠ 0 <;>
          by_cases hl : (o.jdLeadgenRequired && !o.resumeLeadgenPresent) = true <;>
          simp_all <;>
          rcases he with he | he <;> (rw [he] at hty; simp at hty)

/-- Closed instance of the soft English-only language penalty. -/
theorem language_penalty_characterization_check :
    MatchBoosted.languageGatePenalty ["English"] ["swedish"] = ⟨-4, "soft"⟩ :=
  language_penalty_characterization.2.2.1 ["swedish"] "English"
    (by decide) (by decide) (by decide)

/-- Looking up a freshly `set` key returns the stored entry (replacement
branch). -/
theorem cacheGet_mapset (c : EmbedCache) (k : String) (v : CacheEntry)
    (h : c.any (fun p => p.1 = k) = true) :
    cacheGet (c.map (fun p => if p.1 = k then (k, v) else p)) k = some v := by
  induction c with
  | nil => simp at h
  | cons p rest ih =>
    by_cases hp : p.1 = k
    · simp only [List.map_cons, if_pos hp, cacheGet]
      rw [List.find?_cons_of_pos _ (by simp)]
      simp
    · simp only [List.any_cons, Bool.or_eq_true, decide_eq_true_eq] at h
      rcases h with h | h
      · exact absurd h hp
      · simp only [List.map_cons, if_neg hp, cacheGet]
        rw [List.find?_cons_of_neg _ (by simpa using hp)]
        exact ih h

/-- Looking up a freshly `set` key returns the stored entry (append
branch). -/
theorem cacheGet_append (c : EmbedCache) (k : String) (v : CacheEntry)
    (h : c.any (fun p => p.1 = k) = false) :
    cacheGet (c ++ [(k, v)]) k = some v := by
  induction c with
  | nil => simp [cacheGet]
  | cons p rest ih =>
    simp only [List.any_cons, Bool.or_eq_false_iff, decide_eq_false_iff_not] at h
    simp only [List.cons_append, cacheGet]
    rw [List.find?_cons_of_neg _ (by simpa using h.1)]
    exact ih h.2

/-- Looking up a freshly `set` key returns the stored entry. -/
theorem cacheGet_cacheSet (c : EmbedCache) (k : String) (v : CacheEntry) :
    cacheGet (cacheSet c k v) k = some v := by
  unfold cacheSet
  by_cases h : c.any (fun p => p.1 = k) = true
  · rw [if_pos h]
    exact cacheGet_mapset c k v h
  · rw [if_neg h]
    exact cacheGet_append c k v (by rwa [Bool.not_eq_true] at h)

/-- A live entry (young and produced under the current model) is served
from the cache without calling the provider. -/
theorem getEmbedding_hit (provider : String → Except String (List ℚ))
    (model : String) (now : ℤ) (cache : EmbedCache) (text key : String)
    (hit : CacheEntry) (hg : cacheGet cache key = some hit)
    (hf : now - hit.atMs < TTL_MS) (hm : hit.model = model) :
    getEmbedding provider model now cache text key = (.ok hit.vec, cache, false) := by
  unfold getEmbedding
  rw [hg]
  simp [hf, hm]

/-- A missing key is filled from the provider. -/
theorem getEmbedding_fill_of_none (provider : String → Except String (List ℚ))
    (model : String) (now : ℤ) (cache : EmbedCache) (text key : String)
    (vec : List ℚ) (hg : cacheGet cache key = none) (hp : provider text = .ok vec) :
    getEmbedding provider model now cache text key =
      (.ok vec, cacheSet cache key ⟨vec, now, model⟩, true) := by
  unfold getEmbedding
  rw [hg, hp]

/-- A stale or wrong-model entry is treated as absent and regenerated. -/
theorem getEmbedding_fill_of_invalid (provider : String → Except String (List ℚ))
    (model : String) (now : ℤ) (cache : EmbedCache) (text key : String)
    (hit : CacheEntry) (vec : List ℚ) (hg : cacheGet cache key = some hit)
    (hinv : ¬(now - hit.atMs < TTL_MS ∧ hit.model = model))
    (hp : provider text = .ok vec) :
    getEmbedding provider model now cache text key =
      (.ok vec, cacheSet cache key ⟨vec, now, model⟩, true) := by
  unfold getEmbedding
  rw [hg]
  simp [hinv, hp]

/-- A provider failure propagates and leaves the cache unchanged
(no negative caching), regardless of how the lookup missed. -/
theorem getEmbedding_error (provider : String → Except String (List ℚ))
    (model : String) (now : ℤ) (cache : EmbedCache) (text key : String)
    (e : String) (hp : provider text = .error e)
    (hinv : ∀ hit, cacheGet cache key = some hit →
      ¬(now - hit.atMs < TTL_MS ∧ hit.model = model)) :
    getEmbedding provider model now cache text key = (.error e, cache, true) := by
  unfold getEmbedding
  rcases hg : cacheGet cache key with _ | hit
  · simp [hp]
  · simp [hinv hit hg, hp]

/-- C5: a cache entry is served only while `now - createdAt < TTL` and its
stored model equals the configured model (then the identical vector is
returned with no provider call and no state change); otherwise the entry
is treated as absent and the provider regenerates the vector.  A second
`get` within the TTL of a provider fill returns the same vector without a
second provider call. -/
theorem cache_entry_validity :
    (∀ provider model now cache text key hit,
      cacheGet cache key = some hit → now - hit.atMs < TTL_MS →
      hit.model = model →
      getEmbedding provider model now cache text key = (.ok hit.vec, cache, false)) ∧
    (∀ provider model now cache text key hit vec,
      cacheGet cache key = some hit →
      ¬(now - hit.atMs < TTL_MS ∧ hit.model = model) →
      provider text = .ok vec →
      getEmbedding provider model now cache text key =
        (.ok vec, cacheSet cache key ⟨vec, now, model⟩, true)) ∧
    (∀ provider model t0 t1 cache text key vec cache1,
      getEmbedding provider model t0 cache text key = (.ok vec, cache1, true) →
      t1 - t0 < TTL_MS →
      getEmbedding provider model t1 cache1 text key = (.ok vec, cache1, false)) := by
  refine ⟨getEmbedding_hit, getEmbedding_fill_of_invalid, ?_⟩
  intro provider model t0 t1 cache text key vec cache1 h hfresh
  have hkey : cache1 = cacheSet cache key ⟨vec, t0, model⟩ := by
    rcases hg : cacheGet cache key with _ | hit
    · rcases hp : provider text with e | v
      · rw [getEmbedding_error provider model t0 cache text key e hp
          (fun hit2 hhit => by rw [hg] at hhit; exact absurd hhit (by simp))] at h
        simp at h
      · rw [getEmbedding_fill_of_none provider model t0 cache text key v hg hp] at h
        simp only [Prod.mk.injEq, Except.ok.injEq] at h
        rw [← h.2.1, h.1]
    · by_cases hvalid : t0 - hit.atMs < TTL_MS ∧ hit.model = model
      · rw [getEmbedding_hit provider model t0 cache text key hit hg hvalid.1 hvalid.2] at h
        simp at h
      · rcases hp : provider text with e | v
        · rw [getEmbedding_error provider model t0 cache text key e hp
            (fun hit2 hhit => by rw [hg] at hhit; cases hhit; exact hvalid)] at h
          simp at h
        · rw [getEmbedding_fill_of_invalid provider model t0 cache text key hit v hg hvalid hp] at h
          simp only [Prod.mk.injEq, Except.ok.injEq] at h
          rw [← h.2.1, h.1]
  subst hkey
  exact getEmbedding_hit provider model t1 _ text key ⟨vec, t0, model⟩
    (cacheGet_cacheSet cache key _) (by simpa using hfresh) rfl

/-- Closed instance of the fresh-hit case: the failing provider is never
consulted and the cached vector is returned unchanged. -/
theorem cache_entry_validity_check :
    getEmbedding providerFail "m" 5 cacheOne "hello" "k" =
      (.ok [1, 2], cacheOne, false) :=
  cache_entry_validity.1 providerFail "m" 5 cacheOne "hello" "k"
    ⟨[1, 2], 0, "m"⟩ rfl (by decide) rfl

/-- C8: a failed provider call writes nothing to the cache and propagates
its error; the key stays eligible, so a later successful call fills the
cache; and a provider failure while embedding the signals fails the whole
match request with no partial score and no cache change. -/
theorem provider_error_no_cache_write :
    (∀ provider model now cache text key e,
      provider text = .error e →
      (∀ hit, cacheGet cache key = some hit →
        ¬(now - hit.atMs < TTL_MS ∧ hit.model = model)) →
      getEmbedding provider model now cache text key = (.error e, cache, true)) ∧
    (∀ provider2 model now2 cache text key vec,
      cacheGet cache key = none → provider2 text = .ok vec →
      getEmbedding provider2 model now2 cache text key =
        (.ok vec, cacheSet cache key ⟨vec, now2, model⟩, true)) ∧
    (∀ provider model now cache resumeId jdHash cosFn sim θ (o : Overview) (jd : JD) e,
      provider (MatchSemantic.buildResumeSignal o) = .error e →
      cacheGet cache (signalCacheKey model "resume" resumeId
        (MatchSemantic.buildResumeSignal o)) = none →
      matchPipeline provider model now cache resumeId jdHash cosFn sim θ o jd =
        (.error e, cache)) := by
  refine ⟨fun provider model now cache text key e hp hinv =>
    getEmbedding_error provider model now cache text key e hp hinv,
    getEmbedding_fill_of_none, ?_⟩
  intro provider model now cache resumeId jdHash cosFn sim θ o jd e hp hg
  simp only [matchPipeline]
  rw [getEmbedding_error provider model now cache _ _ e hp
    (fun hit hhit => by rw [hg] at hhit; exact absurd hhit (by simp))]

/-- Closed instance of the all-or-nothing failure: with an empty cache and
a failing provider the whole match request yields the propagated error and
an unchanged cache. -/
theorem provider_error_no_cache_write_check :
    matchPipeline providerFail "m" 0 [] "r1" "j1" cosZero simZero 0 {} {} =
      (.error "boom", []) :=
  provider_error_no_cache_write.2.2 providerFail "m" 0 [] "r1" "j1"
    cosZero simZero 0 {} {} "boom" rfl rfl

/-- A labeled segment string is never empty. -/
theorem label_ne_empty (l v : String) (hl : l.length ≠ 0) : l ++ v ≠ "" := by
  intro hc
  have hlen := congrArg String.length hc
  simp only [String.length_append] at hlen
  rw [show ("" : String).length = 0 from rfl] at hlen
  omega

/-- C6 counterexample: on an empty profile (`title` missing, hence `""`)
the builder still emits the labeled segment `TITLE ` instead of omitting
it, so the signal is not empty; the JD builder behaves the same. -/
theorem resume_signal_title_always_emitted :
    ({} : Overview).title = "" ∧
    MatchSemantic.buildResumeSignal {} = "TITLE " ∧
    MatchSemantic.buildResumeSignal {} ≠ "" ∧
    ({} : JD).title = "" ∧
    MatchSemantic.buildJdSignal {} = "TITLE " := by
  refine ⟨rfl, by decide, by decide, rfl, by decide⟩

/-- Filtering the rendered optional segments equals rendering the kept
pairs: an empty value renders as `""` and is dropped, a non-empty value
renders as the never-empty `LABEL value`. -/
theorem segments_filter_eq (ps : List (String × String))
    (hv : ∀ p ∈ ps, ∀ v : String, p.1 ++ " " ++ v ≠ "") :
    (ps.map (fun p => if p.2 = "" then "" else p.1 ++ " " ++ p.2)).filter (fun s => s ≠ "")
      = (ps.filter (fun p => p.2 ≠ "")).map (fun p => p.1 ++ " " ++ p.2) := by
  induction ps with
  | nil => rfl
  | cons p rest ih =>
    have hp := hv p (List.mem_cons_self p rest)
    have ihh := ih (fun q hq v => hv q (List.mem_cons_of_mem p hq) v)
    by_cases h : p.2 = ""
    · simp [h]
      simpa using ihh
    · simp [h, hp p.2]
      simpa using ihh

/-- On pairs whose label is not `TITLE`, the amended keep-condition is
just non-emptiness of the value. -/
theorem spec_filter_eq (ps : List (String × String))
    (hl : ∀ p ∈ ps, p.1 ≠ "TITLE") :
    ps.filter (fun p => p.1 = "TITLE" ∨ p.2 ≠ "") = ps.filter (fun p => p.2 ≠ "") := by
  induction ps with
  | nil => rfl
  | cons p rest ih =>
    have hp := hl p (List.mem_cons_self p rest)
    have ihh := ih (fun q hq => hl q (List.mem_cons_of_mem p hq))
    by_cases h : p.2 = ""
    · simp [h, hp]
      simpa using ihh
    · simp [h, hp]
      simpa using ihh

/-- C6 amended: each signal builder emits the pipe-delimited labeled
segments in a fixed label order and omits a segment whose value is empty -
except the `TITLE` segment, which is always emitted, empty or not.  The
builders are plain functions of the record, so determinism (byte-identical
output on identical input) holds by construction. -/
theorem signal_builder_segments :
    (∀ o : Overview, MatchSemantic.buildResumeSignal o =
      renderSegments (resumeSegments o)) ∧
    (∀ jd : JD, MatchSemantic.buildJdSignal jd =
      renderSegments (jdSegments jd)) := by
  constructor
  · intro o
    have hv : ∀ p ∈ resumeTail o, ∀ v : String, p.1 ++ " " ++ v ≠ "" := by
      intro p hp v
      obtain ⟨a, b⟩ := p
      show a ++ " " ++ v ≠ ""
      simp only [resumeTail, List.mem_cons, List.not_mem_nil, or_false,
        Prod.mk.injEq] at hp
      rcases hp with ⟨h, -⟩ | ⟨h, -⟩ | ⟨h, -⟩ | ⟨h, -⟩ | ⟨h, -⟩ | ⟨h, -⟩ | ⟨h, -⟩ | ⟨h, -⟩ <;>
        (subst h; exact label_ne_empty _ _ (by decide))
    have hl : ∀ p ∈ resumeTail o, p.1 ≠ "TITLE" := by
      intro p hp
      obtain ⟨a, b⟩ := p
      show a ≠ "TITLE"
      simp only [resumeTail, List.mem_cons, List.not_mem_nil, or_false,
        Prod.mk.injEq] at hp
      rcases hp with ⟨h, -⟩ | ⟨h, -⟩ | ⟨h, -⟩ | ⟨h, -⟩ | ⟨h, -⟩ | ⟨h, -⟩ | ⟨h, -⟩ | ⟨h, -⟩ <;>
        (subst h; decide)
    have hcode : MatchSemantic.buildResumeSignal o =
        String.intercalate " | " ((("TITLE " ++ jsNorm o.title) ::
          ((resumeTail o).map
            (fun p => if p.2 = "" then "" else p.1 ++ " " ++ p.2))).filter
              (fun s => s ≠ "")) := rfl
    rw [hcode]
    unfold renderSegments resumeSegments
    simp only [List.filter_cons]
    rw [if_pos (decide_eq_true (label_ne_empty "TITLE " (jsNorm o.title) (by decide))),
      if_pos (by simp),
      segments_filter_eq _ hv, spec_filter_eq _ hl]
    rfl
  · intro jd
    have hv : ∀ p ∈ jdTail jd, ∀ v : String, p.1 ++ " " ++ v ≠ "" := by
      intro p hp v
      obtain ⟨a, b⟩ := p
      show a ++ " " ++ v ≠ ""
      simp only [jdTail, List.mem_cons, List.not_mem_nil, or_false,
        Prod.mk.injEq] at hp
      rcases hp with ⟨h, -⟩ | ⟨h, -⟩ | ⟨h, -⟩ | ⟨h, -⟩ | ⟨h, -⟩ | ⟨h, -⟩ | ⟨h, -⟩ | ⟨h, -⟩ <;>
        (subst h; exact label_ne_empty _ _ (by decide))
    have hl : ∀ p ∈ jdTail jd, p.1 ≠ "TITLE" := by
      intro p hp
      obtain ⟨a, b⟩ := p
      show a ≠ "TITLE"
      simp only [jdTail, List.mem_cons, List.not_mem_nil, or_false,
        Prod.mk.injEq] at hp
      rcases hp with ⟨h, -⟩ | ⟨h, -⟩ | ⟨h, -⟩ | ⟨h, -⟩ | ⟨h, -⟩ | ⟨h, -⟩ | ⟨h, -⟩ | ⟨h, -⟩ <;>
        (subst h; decide)
    have hcode : MatchSemantic.buildJdSignal jd =
        String.intercalate " | " ((("TITLE " ++ jsNorm jd.title) ::
          ((jdTail jd).map
            (fun p => if p.2 = "" then "" else p.1 ++ " " ++ p.2))).filter
              (fun s => s ≠ "")) := rfl
    rw [hcode]
    unfold renderSegments jdSegments
    simp only [List.filter_cons]
    rw [if_pos (decide_eq_true (label_ne_empty "TITLE " (jsNorm jd.title) (by decide))),
      if_pos (by simp),
      segments_filter_eq _ hv, spec_filter_eq _ hl]
    rfl


/-- C3 counterexample: with threshold 0.5, target "gamma" is paired with
"alpha" (similarity 0.6), the first source over the threshold, although
"beta" has the strictly higher similarity 0.9 - first-over-threshold, not
top-1. -/
theorem soft_match_not_top1 :
    (MatchSemantic.softStringMatches simCE ["alpha", "beta"] ["gamma"]
      (Rat.divInt 1 2) 4).map (fun m => (m.right, m.left)) = [("gamma", "alpha")] ∧
    simCE "gamma" "alpha" < simCE "gamma" "beta" := by
  constructor
  · decide
  · decide

/-- The outer loop of `softStringMatches` appends the per-term
first-over-threshold matches until `maxTotal` entries are collected. -/
theorem softStringAux_eq_take (sim : String → String → ℚ) (resumeNorm : List String)
    (θ : ℚ) (M : ℕ) :
    ∀ (jdList : List String) (acc : List MatchSemantic.SoftMatch), acc.length < M →
      MatchSemantic.softStringAux sim resumeNorm θ M jdList acc =
        acc ++ (jdList.filterMap (jdTermMatch sim resumeNorm θ)).take (M - acc.length) := by
  intro jdList
  induction jdList with
  | nil =>
    intro acc h
    simp [MatchSemantic.softStringAux]
  | cons t rest ih =>
    intro acc hlen
    have hnle : ¬ M ≤ acc.length := Nat.not_le.mpr hlen
    simp only [MatchSemantic.softStringAux, List.filterMap_cons]
    by_cases h1 : normalizeTokenV2 t = ""
    · have hm : jdTermMatch sim resumeNorm θ t = none := by
        simp [jdTermMatch, h1]
      rw [if_pos h1, ih acc hlen]
      simp [hm]
    · rw [if_neg h1]
      have hm := fun cv (hf : resumeNorm.find?
          (fun cvTerm => decide (θ ≤ sim (normalizeTokenV2 t) (normalizeTokenV2 cvTerm))) = some cv) =>
        show jdTermMatch sim resumeNorm θ t =
            some ⟨normalizeTokenV2 t, normalizeTokenV2 cv,
              round4 (sim (normalizeTokenV2 t) (normalizeTokenV2 cv))⟩ from by
          simp [jdTermMatch, h1, hf]
      rcases hf : resumeNorm.find?
          (fun cvTerm => decide (θ ≤ sim (normalizeTokenV2 t) (normalizeTokenV2 cvTerm))) with _ | cv
      · have hmn : jdTermMatch sim resumeNorm θ t = none := by
          simp [jdTermMatch, h1, hf]
        simp only [hmn, hnle, if_false]
        exact ih acc hlen
      · have hms := hm cv hf
        simp only [hms]
        by_cases h2 : M ≤ acc.length + 1
        · have hM : M = acc.length + 1 := le_antisymm h2 hlen
          rw [if_pos (by simpa using h2), hM]
          simp
        · rw [if_neg (by simpa using h2)]
          rw [ih _ (by simp; omega)]
          have hsub : M - acc.length = (M - (acc.length + 1)) + 1 := by omega
          rw [hsub]
          simp

/-- Fusing the pre-filter of the JD terms into the per-term match. -/
theorem filterMap_filter_eq (p : String → Bool)
    (f : String → Option MatchSemantic.SoftMatch) (l : List String) :
    (l.filter p).filterMap f = l.filterMap (fun x => if p x then f x else none) := by
  induction l with
  | nil => rfl
  | cons x rest ih =>
    by_cases h : p x = true
    · simp [List.filter_cons, h, List.filterMap_cons, ih]
    · simp [List.filter_cons, h, List.filterMap_cons, ih]

/-- A recorded soft match carries the normalized JD term as its `right`
component. -/
theorem jdTermMatch_right (sim : String → String → ℚ) (resumeNorm : List String)
    (θ : ℚ) (t : String) (m : MatchSemantic.SoftMatch)
    (h : jdTermMatch sim resumeNorm θ t = some m) : m.right = normalizeTokenV2 t := by
  simp only [jdTermMatch] at h
  by_cases h1 : normalizeTokenV2 t = ""
  · rw [if_pos h1] at h
    cases h
  · rw [if_neg h1] at h
    rcases hf : resumeNorm.find?
        (fun cvTerm => decide (θ ≤ sim (normalizeTokenV2 t) (normalizeTokenV2 cvTerm))) with _ | cv <;>
      rw [hf] at h
    · cases h
    · cases h
      rfl

/-- Every token collected by the inner skill loop is either carried in
from the accumulator or is the normalization of a walked JD skill. -/
theorem softSkillAux_mem (sim : String → String → ℚ) (resumeNorm : List String) (θ : ℚ) :
    ∀ (jdList acc : List String) (tok : String),
      tok ∈ MatchSemantic.softSkillAux sim resumeNorm θ jdList acc →
      tok ∈ acc ∨ ∃ t ∈ jdList, tok = normalizeTokenV2 t := by
  intro jdList
  induction jdList with
  | nil =>
    intro acc tok h
    simp only [MatchSemantic.softSkillAux] at h
    exact Or.inl h
  | cons t rest ih =>
    intro acc tok h
    simp only [MatchSemantic.softSkillAux] at h
    by_cases h1 : normalizeTokenV2 t = ""
    · rw [if_pos h1] at h
      rcases ih acc tok h with h' | ⟨u, hu, he⟩
      · exact Or.inl h'
      · exact Or.inr ⟨u, List.mem_cons_of_mem t hu, he⟩
    · rw [if_neg h1] at h
      by_cases h2 : resumeNorm.any (fun cv => decide (θ ≤ sim (normalizeTokenV2 t) cv)) = true
      · rw [if_pos h2] at h
        rcases ih _ tok h with h' | ⟨u, hu, he⟩
        · by_cases h3 : acc.contains (normalizeTokenV2 t) = true
          · rw [if_pos h3] at h'
            exact Or.inl h'
          · rw [if_neg h3] at h'
            rcases List.mem_append.mp h' with h'' | h''
            · exact Or.inl h''
            · simp only [List.mem_singleton] at h''
              exact Or.inr ⟨t, List.mem_cons_self t rest, h''⟩
        · exact Or.inr ⟨u, List.mem_cons_of_mem t hu, he⟩
      · rw [if_neg h2] at h
        rcases ih acc tok h with h' | ⟨u, hu, he⟩
        · exact Or.inl h'
        · exact Or.inr ⟨u, List.mem_cons_of_mem t hu, he⟩

/-- C3 amended: a target (JD) term whose normalized form lies in the exact
normalized overlap is excluded from semantic matching (for both the skill
and the string matcher); every remaining target term is matched to the
FIRST source term in input order whose cosine similarity reaches the
category threshold - first-over-threshold, not top-1 - with at most
`maxTotal` matches collected. -/
theorem soft_match_first_over_threshold (sim : String → String → ℚ)
    (resumeTerms jdTerms : List String) (θ : ℚ) (M : ℕ) (hM : 1 ≤ M) :
    MatchSemantic.softStringMatches sim resumeTerms jdTerms θ M =
      firstOverThresholdMatches sim resumeTerms jdTerms θ M ∧
    (∀ m ∈ MatchSemantic.softStringMatches sim resumeTerms jdTerms θ M,
      (intersect resumeTerms jdTerms 100).contains m.right = false) ∧
    (∀ tok ∈ MatchSemantic.softSkillMatches sim resumeTerms jdTerms θ,
      (intersect resumeTerms jdTerms 100).contains tok = false) := by
  have heq : MatchSemantic.softStringMatches sim resumeTerms jdTerms θ M =
      firstOverThresholdMatches sim resumeTerms jdTerms θ M := by
    unfold MatchSemantic.softStringMatches firstOverThresholdMatches
    rw [softStringAux_eq_take sim _ θ M _ [] (by simpa using hM)]
    simp only [List.nil_append, List.length_nil, Nat.sub_zero]
    rw [filterMap_filter_eq]
    have hfun : (fun x => if (fun s => !(intersect resumeTerms jdTerms 100).contains (normalizeTokenV2 s)) x then
        jdTermMatch sim ((resumeTerms.map normalizeTokenV2).filter (· ≠ "")) θ x else none) =
        (fun jdTerm => if (intersect resumeTerms jdTerms 100).contains (normalizeTokenV2 jdTerm) then none
          else jdTermMatch sim ((resumeTerms.map normalizeTokenV2).filter (· ≠ "")) θ jdTerm) := by
      funext x
      by_cases hc : (intersect resumeTerms jdTerms 100).contains (normalizeTokenV2 x) = true
      · simp [hc]
      · simp [hc]
    rw [hfun]
  refine ⟨heq, ?_, ?_⟩
  · intro m hm
    rw [heq] at hm
    unfold firstOverThresholdMatches at hm
    have hm2 := List.mem_of_mem_take hm
    simp only [List.mem_filterMap] at hm2
    obtain ⟨t, ht, hbody⟩ := hm2
    by_cases hc : (intersect resumeTerms jdTerms 100).contains (normalizeTokenV2 t) = true
    · rw [if_pos hc] at hbody
      cases hbody
    · rw [if_neg hc] at hbody
      rw [jdTermMatch_right sim _ θ t m hbody]
      exact Bool.not_eq_true _ ▸ hc
  · intro tok htok
    unfold MatchSemantic.softSkillMatches at htok
    rcases softSkillAux_mem sim _ θ _ [] tok htok with h' | ⟨t, ht, he⟩
    · cases h'
    · rw [List.mem_filter] at ht
      rw [he]
      have h2 := ht.2
      cases hb : (intersect resumeTerms jdTerms 100).contains (normalizeTokenV2 t)
      · rfl
      · rw [hb] at h2
        simp at h2

/-- UInt32 order agrees with the order of the underlying naturals. -/
theorem ule_toNat {a b : UInt32} : a ≤ b ↔ a.toNat ≤ b.toNat := by
  rw [UInt32.le_def]
  exact ⟨fun h => h, fun h => h⟩

/-- Lower-casing never yields a basic-latin capital letter. -/
theorem isUpper_toLower (c : Char) : (Char.toLower c).isUpper = false := by
  unfold Char.toLower
  simp only []
  by_cases h : c.toNat ≥ 65 ∧ c.toNat ≤ 90
  · rw [if_pos h]
    have hv : (Char.ofNat (c.toNat + 32)).toNat = c.toNat + 32 := by
      rw [Char.ofNat, dif_pos (Or.inl (by omega))]
      rfl
    simp only [Char.isUpper, Bool.and_eq_false_iff, decide_eq_false_iff_not]
    right
    intro hc
    have h2 := ule_toNat.mp hc
    have h90 : (90 : UInt32).toNat = 90 := rfl
    have e1 : (Char.ofNat (c.toNat + 32)).val.toNat = (Char.ofNat (c.toNat + 32)).toNat := rfl
    rw [h90, e1, hv] at h2
    omega
  · rw [if_neg h]
    simp only [Char.isUpper, Bool.and_eq_false_iff, decide_eq_false_iff_not]
    by_cases h1 : c.val ≥ 65
    · right
      intro hc
      exact h ⟨ule_toNat.mp h1, ule_toNat.mp hc⟩
    · left
      exact h1

/-- Trimming only removes characters. -/
theorem mem_trimList (l : List Char) (c : Char) (h : c ∈ trimList l) : c ∈ l := by
  unfold trimList at h
  rw [List.mem_reverse] at h
  have h1 := (List.dropWhile_sublist _).subset h
  rw [List.mem_reverse] at h1
  exact (List.dropWhile_sublist _).subset h1

/-- Punctuation replacement yields spaces and punctuation-free originals. -/
theorem mem_punctToSpaceList (l : List Char) (c : Char) (h : c ∈ punctToSpaceList l) :
    c = ' ' ∨ (c ∈ l ∧ isPunctSym c = false) := by
  unfold punctToSpaceList at h
  rw [List.mem_map] at h
  obtain ⟨a, ha, he⟩ := h
  by_cases hp : isPunctSym a = true
  · rw [if_pos hp] at he
    exact Or.inl he.symm
  · rw [if_neg hp] at he
    subst he
    exact Or.inr ⟨ha, by simpa using hp⟩

/-- Whitespace collapse emits only spaces and original characters. -/
theorem mem_collapseCore (c : Char) :
    ∀ (l : List Char) (pending : Bool), c ∈ collapseCore pending l → c = ' ' ∨ c ∈ l := by
  intro l
  induction l with
  | nil =>
    intro pending h
    cases h
  | cons d rest ih =>
    intro pending h
    unfold collapseCore at h
    by_cases hw : Char.isWhitespace d = true
    · rw [if_pos hw] at h
      rcases ih true h with h' | h'
      · exact Or.inl h'
      · exact Or.inr (List.mem_cons_of_mem d h')
    · rw [if_neg hw] at h
      by_cases hp : pending = true
      · rw [if_pos hp] at h
        rcases List.mem_cons.mp h with he | h2
        · exact Or.inl he
        · rcases List.mem_cons.mp h2 with he | h3
          · exact Or.inr (he ▸ List.mem_cons_self d rest)
          · rcases ih false h3 with h' | h'
            · exact Or.inl h'
            · exact Or.inr (List.mem_cons_of_mem d h')
      · rw [if_neg hp] at h
        rcases List.mem_cons.mp h with he | h3
        · exact Or.inr (he ▸ List.mem_cons_self d rest)
        · rcases ih false h3 with h' | h'
          · exact Or.inl h'
          · exact Or.inr (List.mem_cons_of_mem d h')

/-- Singularization keeps a (possibly improper) leading run of the word. -/
theorem pluralStripList_isPre (l : List Char) : pluralStripList l <+: l := by
  have hsplit : ∀ n : ℕ, (l.reverse.drop n).reverse ++ (l.reverse.take n).reverse = l := by
    intro n
    rw [← List.reverse_append, List.take_append_drop, List.reverse_reverse]
  unfold pluralStripList
  by_cases h1 : l.reverse.take 2 = ['s', 'e']
  · rw [if_pos h1]
    refine ⟨['e', 's'], ?_⟩
    have h2 := hsplit 2
    rwa [h1] at h2
  · rw [if_neg h1]
    by_cases h2 : l.reverse.take 1 = ['s']
    · rw [if_pos h2]
      refine ⟨['s'], ?_⟩
      have h3 := hsplit 1
      rwa [h2] at h3
    · rw [if_neg h2]

/-- Singularization only removes trailing characters. -/
theorem mem_pluralStripList (l : List Char) (c : Char) (h : c ∈ pluralStripList l) : c ∈ l := by
  obtain ⟨t, ht⟩ := pluralStripList_isPre l
  rw [← ht]
  exact List.mem_append_left t h

/-- Whitespace collapse never leaves two adjacent spaces. -/
theorem collapseCore_chain (l : List Char) :
    ∀ pending : Bool,
      (collapseCore pending l).Chain' (fun a b => ¬(a = ' ' ∧ b = ' ')) := by
  induction l with
  | nil =>
    intro pending
    simp [collapseCore]
  | cons d rest ih =>
    intro pending
    unfold collapseCore
    by_cases hw : Char.isWhitespace d = true
    · rw [if_pos hw]
      exact ih true
    · have hd : d ≠ ' ' := fun he => by
        rw [he] at hw
        exact hw rfl
      rw [if_neg hw]
      by_cases hp : pending = true
      · rw [if_pos hp, List.chain'_cons]
        refine ⟨fun hcon => hd hcon.2, ?_⟩
        rw [List.chain'_cons']
        exact ⟨fun b _ hcon => hd hcon.1, ih false⟩
      · rw [if_neg hp, List.chain'_cons']
        exact ⟨fun b _ hcon => hd hcon.1, ih false⟩

/-- A list without adjacent spaces has no double-space run anywhere. -/
theorem no_double_space {l : List Char}
    (h : l.Chain' (fun a b => ¬(a = ' ' ∧ b = ' '))) : ¬ ([' ', ' '] <:+: l) := by
  rintro ⟨s, t, hst⟩
  rw [← hst, List.chain'_append] at h
  have h1 := h.1
  rw [List.chain'_append] at h1
  have h2 := h1.2.1
  rw [List.chain'_cons] at h2
  exact h2.1 ⟨rfl, rfl⟩

/-- An infix of a leading run is an infix of the full list. -/
theorem infix_of_pre {m mid l : List Char} (h1 : m <:+: mid) (h2 : mid <+: l) :
    m <:+: l := by
  obtain ⟨s, t, hst⟩ := h1
  obtain ⟨u, hu⟩ := h2
  exact ⟨s, t ++ u, by rw [← hu, ← hst]; simp⟩

/-- The head surviving `dropWhile isWhitespace` is not whitespace. -/
theorem head_dropWhile_not_ws (l : List Char) :
    ∀ c ∈ (l.dropWhile Char.isWhitespace).head?, Char.isWhitespace c = false := by
  induction l with
  | nil =>
    intro c h
    cases h
  | cons d rest ih =>
    intro c h
    by_cases hw : Char.isWhitespace d = true
    · rw [List.dropWhile_cons_of_pos hw] at h
      exact ih c h
    · rw [List.dropWhile_cons_of_neg hw] at h
      simp only [List.head?_cons, Option.mem_def, Option.some.injEq] at h
      subst h
      simpa using hw

/-- With no pending whitespace and a non-whitespace head, the collapse
keeps that head, which is therefore not a space. -/
theorem collapseCore_false_head (l : List Char)
    (hl : ∀ c ∈ l.head?, Char.isWhitespace c = false) :
    ∀ c ∈ (collapseCore false l).head?, c ≠ ' ' := by
  cases l with
  | nil =>
    intro c h
    cases h
  | cons d rest =>
    intro c h
    have hd : Char.isWhitespace d = false := hl d (by simp)
    unfold collapseCore at h
    rw [if_neg (by simp [hd]), if_neg (by simp)] at h
    simp only [List.head?_cons, Option.mem_def, Option.some.injEq] at h
    subst h
    intro he
    rw [he] at hd
    exact absurd hd (by decide)

/-- A leading run shares its head with the full list. -/
theorem head_of_pre {l₁ l₂ : List Char} (h : l₁ <+: l₂) (c : Char)
    (hc : c ∈ l₁.head?) : c ∈ l₂.head? := by
  obtain ⟨t, ht⟩ := h
  cases l₁ with
  | nil => cases hc
  | cons d r =>
    simp only [List.head?_cons, Option.mem_def, Option.some.injEq] at hc
    subst hc
    rw [← ht]
    simp

/-- **C9 (amended).** The first token normalizer of `lib/text.js` (lines
3-12) lower-cases its input (no output character is an upper-case
basic-latin letter), replaces punctuation/symbol characters by spaces (no
punctuation/symbol character survives), collapses whitespace (no two
adjacent spaces remain, and the output never starts with a space), and
removes a single trailing "s" or "es" ("Boxes" ↦ "box", "Skills" ↦
"skill"); the second version (lines 42-49) lower-cases, keeps only the
characters of the class `[a-z0-9+&/#.\- ]` (deleting the rest instead of
spacing it), collapses whitespace, and performs no singularization; both
are total Lean functions, hence deterministic and pure, and map the empty
string to the empty string. -/
theorem normalize_token_properties :
    ((∀ s : String, ∀ c ∈ (normalizeToken s).data,
        isPunctSym c = false ∧ c.isUpper = false) ∧
    (∀ s : String, ¬ ([' ', ' '] <:+: (normalizeToken s).data)) ∧
    (∀ s : String, ∀ c ∈ (normalizeToken s).data.head?, c ≠ ' ') ∧
    normalizeToken "Boxes" = "box" ∧
    normalizeToken "Skills" = "skill" ∧
    normalizeToken "A,,B" = "a b" ∧
    normalizeToken "  Mixed   CASE " = "mixed case" ∧
    normalizeToken "" = "") ∧
    (∀ s : String, ∀ c ∈ (normalizeTokenV2 s).data,
        allowedV2 c = true ∧ c.isUpper = false) ∧
    (∀ s : String, ¬ ([' ', ' '] <:+: (normalizeTokenV2 s).data)) ∧
    (∀ s : String, ∀ c ∈ (normalizeTokenV2 s).data.head?, c ≠ ' ') ∧
    normalizeTokenV2 "Boxes" = "boxes" ∧
    normalizeTokenV2 "" = "" := by
  have hspace : isPunctSym ' ' = false ∧ (' ').isUpper = false := by decide
  refine ⟨⟨?_, ?_, ?_, by decide, by decide, by decide, by decide, by decide⟩,
    ?_, ?_, ?_, by decide, by decide⟩
  · intro s c hc
    unfold normalizeToken at hc
    by_cases hs : s = ""
    · rw [if_pos hs, show ("" : String).data = [] from rfl] at hc
      cases hc
    · rw [if_neg hs] at hc
      have hc1 : c ∈ normalizeTokenList s.data := hc
      unfold normalizeTokenList at hc1
      have hc2 := mem_pluralStripList _ _ hc1
      unfold collapseWsList at hc2
      rcases mem_collapseCore c _ false hc2 with he | hc3
      · exact he ▸ hspace
      · have hc4 := (List.dropWhile_sublist _).subset hc3
        rcases mem_punctToSpaceList _ _ hc4 with he | ⟨hc5, hps⟩
        · exact he ▸ hspace
        · have hc6 := mem_trimList _ _ hc5
          rw [List.mem_map] at hc6
          obtain ⟨a, _, he⟩ := hc6
          exact ⟨hps, he ▸ isUpper_toLower a⟩
  · intro s hinf
    unfold normalizeToken at hinf
    by_cases hs : s = ""
    · rw [if_pos hs, show ("" : String).data = [] from rfl] at hinf
      rw [List.infix_nil] at hinf
      simp at hinf
    · rw [if_neg hs] at hinf
      have hinf1 : [' ', ' '] <:+: normalizeTokenList s.data := hinf
      unfold normalizeTokenList at hinf1
      have h2 := infix_of_pre hinf1 (pluralStripList_isPre _)
      unfold collapseWsList at h2
      exact no_double_space (collapseCore_chain _ false) h2
  · intro s c hc
    unfold normalizeToken at hc
    by_cases hs : s = ""
    · rw [if_pos hs, show ("" : String).data = [] from rfl] at hc
      cases hc
    · rw [if_neg hs] at hc
      have hc1 : c ∈ (normalizeTokenList s.data).head? := hc
      unfold normalizeTokenList at hc1
      have hc2 := head_of_pre (pluralStripList_isPre _) c hc1
      unfold collapseWsList at hc2
      exact collapseCore_false_head _ (head_dropWhile_not_ws _) c hc2
  · intro s c hc
    have hc1 : c ∈ collapseWsList ((s.data.map Char.toLower).filter allowedV2) := hc
    unfold collapseWsList at hc1
    rcases mem_collapseCore c _ false hc1 with he | hc2
    · exact he ▸ (by decide)
    · have hc3 := (List.dropWhile_sublist _).subset hc2
      rw [List.mem_filter] at hc3
      obtain ⟨hc4, ha⟩ := hc3
      rw [List.mem_map] at hc4
      obtain ⟨a, _, he⟩ := hc4
      exact ⟨ha, he ▸ isUpper_toLower a⟩
  · intro s hinf
    have hinf1 : [' ', ' '] <:+:
        collapseWsList ((s.data.map Char.toLower).filter allowedV2) := hinf
    unfold collapseWsList at hinf1
    exact no_double_space (collapseCore_chain _ false) hinf1
  · intro s c hc
    have hc1 : c ∈ (collapseWsList ((s.data.map Char.toLower).filter allowedV2)).head? := hc
    unfold collapseWsList at hc1
    exact collapseCore_false_head _ (head_dropWhile_not_ws _) c hc1

/-- C9 counterexample to the unamended claim: the second token normalizer
of `lib/text.js` performs no singularization ("Boxes" keeps its plural
"s") and deletes punctuation instead of replacing it by a space. -/
theorem normalize_token_v2_not_singular :
    normalizeTokenV2 "Boxes" = "boxes" ∧
    normalizeTokenV2 "Boxes" ≠ normalizeToken "Boxes" ∧
    normalizeTokenV2 "A,,B" = "ab" ∧
    normalizeToken "A,,B" = "a b" := by
  refine ⟨by decide, by decide, by decide, by decide⟩

/-- Witness for `normalize_token_properties` at a concrete input: the letter
o of `normalizeToken "Boxes" = "box"` is neither punctuation nor upper
case. -/
theorem normalize_token_properties_check :
    isPunctSym 'o' = false ∧ ('o').isUpper = false :=
  normalize_token_properties.1.1 "Boxes" 'o' (by decide)

/-- Witness for `soft_match_first_over_threshold` at concrete inputs: with
the zero similarity oracle, one resume term and one JD term, threshold 1 and
cap 4, the soft matcher agrees with the first-over-threshold description and
both matchers exclude exact overlaps. -/
theorem soft_match_first_over_threshold_check :
    MatchSemantic.softStringMatches simZero ["alpha"] ["beta"] 1 4 =
      firstOverThresholdMatches simZero ["alpha"] ["beta"] 1 4 ∧
    (∀ m ∈ MatchSemantic.softStringMatches simZero ["alpha"] ["beta"] 1 4,
      (intersect ["alpha"] ["beta"] 100).contains m.right = false) ∧
    (∀ tok ∈ MatchSemantic.softSkillMatches simZero ["alpha"] ["beta"] 1,
      (intersect ["alpha"] ["beta"] 100).contains tok = false) :=
  soft_match_first_over_threshold simZero ["alpha"] ["beta"] 1 4 (by decide)
